import Mathlib

/-!
The rFaaS executor manager: connection-and-lifecycle engine.

A shallow embedding of `src/server/executor_manager/manager.cpp` (the listener
`Manager::listen` and the RDMA poller `Manager::poll_rdma`), of the process
launcher of `src/server/manager.cpp` (`ProcessExecutor::spawn`,
`ProcessExecutor::check`) and of the executor secret of the legacy manager in the
same file.

Conventions of the embedding.

* A `rdmalib::Connection*` is a record of the pointer value (`id`), the queue-pair
  number `conn->qp()->qp_num` and the 32-bit private data `conn->private_data()`.
* The client registry `std::unordered_map<uint32_t, Client>` is an association
  list; uniqueness of keys is the invariant `Registry.WF`, proved to be preserved.
* Everything the poller asks of the outside world during one loop iteration (the
  completions polled per client, the results of `fork`, `waitpid` and of the
  clock) is read from a `PollEnv`.
* Calls into the RDMA substrate and process creation are appended to
  `Manager.trace`, in program order.
* A path on which the C++ thread cannot continue (dereferencing an empty
  `executor` handle, `std::get` on the wrong variant alternative, the child side
  of `fork` that replaces the process image) stores a `Halt` and stops the step.
* Time points are integers in microseconds, so that
  `duration_cast<microseconds>(a - b).count()` is `a - b`.
* The poller's `int conn_count` is an integer kept in the range of a 32-bit signed
  `int`: every increment goes through `wrap_int`.
-/

namespace Rfaas

/-! ## Data model -/

/-- Modelled from the spec: the enumeration `rdmalib::ConnectionStatus` is declared outside
src; section 6.3 lists the three statuses the event source reports. -/
inductive ConnectionStatus where
  | REQUESTED
  | ESTABLISHED
  | DISCONNECTED
  deriving DecidableEq, Repr

/-- A connection handle `rdmalib::Connection*`: pointer identity, `qp()->qp_num` and
`private_data()`. -/
structure Connection where
  id : Nat
  qp_num : Nat
  private_data : Nat
  deriving DecidableEq, Repr

/-- Modelled from the spec: `rdmalib::PrivateData<0, 0, 32>` is declared outside src; the
private data is 32 bits wide and all of it is the secret (section 6.1), so reading the
secret of a 32-bit word returns the word. -/
def PrivateData.secret (private_data : Nat) : Nat := private_data

/-- Modelled from the spec: `data.secret(x); data.data()` on a `PrivateData<0, 0, 32>`
yields the 32-bit word whose secret is `x`. -/
def PrivateData.data (secret : Nat) : Nat := secret

/-- Wire record `rdmalib::AllocationRequest` (spec section 6.1). -/
structure AllocationRequest where
  listen_address : String
  listen_port : Int
  input_buf_size : Int
  func_buf_size : Int
  hot_timeout : Int
  cores : Int
  deriving DecidableEq, Repr

/-- Fields of `ExecutorSettings` read by `ProcessExecutor::spawn`. -/
structure ExecutorSettings where
  repetitions : Int
  warmup_iters : Int
  recv_buffer_size : Int
  max_inline_data : Int
  deriving DecidableEq, Repr

/-- Manager-side connection parameters `executor::ManagerConnection`, in the order of the
brace initialiser `{addr, port, secret, r_addr, r_key}`. -/
structure ManagerConnection where
  addr : String
  port : Int
  secret : Nat
  r_addr : Nat
  r_key : Nat
  deriving DecidableEq, Repr

/-- Fields of the manager's `Settings` read by the poller. -/
structure Settings where
  exec : ExecutorSettings
  ip_address : String
  rdma_device_port : Int
  deriving DecidableEq, Repr

/-- Status of an executor, `ActiveExecutor::Status`. -/
inductive Status where
  | RUNNING
  | FINISHED
  | FINISHED_FAIL
  deriving DecidableEq, Repr

/-- Executor handle `ProcessExecutor` (an `ActiveExecutor`): the child pid, the two
timestamps, and the back-channel connections attached by `add_executor`. -/
structure ProcessExecutor where
  _pid : Int
  _allocation_begin : Int
  _allocation_finished : Int
  connections : List Connection
  deriving DecidableEq, Repr

/-- The registered accounting region `client.accounting`: its address, remote key and
number of `Accounting` slots. -/
structure AccountingBuffer where
  address : Nat
  rkey : Nat
  size : Nat
  deriving DecidableEq, Repr

/-- Per-client record `Client` of the executor manager. `allocation_requests` is the
content of the receive slots, indexed by work-request id. -/
structure Client where
  connection : Connection
  allocation_requests : Nat → AllocationRequest
  accounting : AccountingBuffer
  executor : Option ProcessExecutor
  allocation_time : Int
  _active : Bool

/-- A polled work completion `ibv_wc`: the work-request id and the status. -/
structure WorkCompletion where
  wr_id : Nat
  status : Nat
  deriving DecidableEq, Repr

/-- Control operation `Operation`. -/
inductive Operation where
  | CONNECT
  | DISCONNECT
  deriving DecidableEq, Repr

/-- Payload `msg_t = std::variant<rdmalib::Connection*, Client>`. -/
inductive msg_t where
  | connection (conn : Connection)
  | client (c : Client)

/-- Calls into the RDMA substrate and the operating system, as recorded in program order. -/
inductive Op where
  | accept (conn : Nat)
  | reject (conn : Nat)
  | post_recv (conn : Nat)
  | spawn (i : Nat) (conn : ManagerConnection) (pid : Int)
  | disable (i : Nat)
  | refill (i : Nat)
  | read_accounting (i : Nat) (index : Int)
  deriving DecidableEq, Repr

/-- Ways in which the running thread stops executing the loop. -/
inductive Halt where
  | null_executor (qp_num : Nat)
  | bad_variant_access
  | exec (out_file : String) (argv : List String)
  deriving DecidableEq, Repr

/-- The client registry `_clients`. -/
abbrev Registry := List (Nat × Client)

/-- State shared by the listener and the poller: the control queue `_client_queue`, the
registry `_clients`, the poller's counter `int conn_count`, the trace of substrate calls
and the halt marker. -/
structure Manager where
  _client_queue : List (Operation × msg_t)
  _clients : Registry
  conn_count : Int
  trace : List Op
  halt : Option Halt

/-! ## Registry operations (`std::unordered_map`) -/

/-- Keys of the registry, in iteration order. -/
def Registry.keys (r : Registry) : List Nat := r.map Prod.fst

/-- Lookup `_clients.find(k)`: the entry stored under `k`, if any. -/
def Registry.find : Registry → Nat → Option Client
  | [], _ => none
  | (k, c) :: rest, q => if k = q then some c else Registry.find rest q

/-- Insertion `_clients.emplace(k, client)`: inserts only when the key is absent. -/
def Registry.emplace (r : Registry) (k : Nat) (c : Client) : Registry :=
  match Registry.find r k with
  | some _ => r
  | none => r ++ [(k, c)]

/-- Erasure `_clients.erase(it)` of the entry an iterator obtained for key `q` points to:
one entry is removed. -/
def Registry.erase : Registry → Nat → Registry
  | [], _ => []
  | (k, c) :: rest, q => if k = q then rest else (k, c) :: Registry.erase rest q

/-- In-place update through an iterator obtained for key `q`. -/
def Registry.modify : Registry → Nat → (Client → Client) → Registry
  | [], _, _ => []
  | (k, c) :: rest, q, f =>
    if k = q then (k, f c) :: rest else (k, c) :: Registry.modify rest q f

/-- Registry invariant of `std::unordered_map`: no key occurs twice. -/
def Registry.WF (r : Registry) : Prop := r.keys.Nodup

/-- Every entry is stored under the queue-pair number of its own connection. -/
def Registry.Keyed (r : Registry) : Prop :=
  ∀ k c, (k, c) ∈ r → c.connection.qp_num = k

/-! ## Client operations -/

/-- Modelled from the spec: the constructor `Client{conn, pd}` of the executor manager is
not in src. It wraps the connection, registers the receive region and primes the receive
work requests against the allocation-request slots (the caller records `Op.post_recv`);
a new client has no executor and no accumulated allocation time. The buffers obtained
from registration are parameters. -/
def Client.make (conn : Connection) (requests : Nat → AllocationRequest)
    (accounting : AccountingBuffer) : Client :=
  { connection := conn, allocation_requests := requests, accounting := accounting,
    executor := none, allocation_time := 0, _active := false }

/-- Modelled from the spec: `Client::active()` of the executor manager is not in src; the
client is active until it has been disabled. -/
def Client.active (c : Client) : Bool := c._active

/-- Modelled from the spec: `Client::disable(int)` of the executor manager is not in src;
it disconnects the client, which is inactive from then on. -/
def Client.disable (c : Client) : Client := { c with _active := false }

/-- Modelled from the spec: `ActiveExecutor::add_executor(conn)` is not in src; it attaches
the back-channel and stamps `allocation_finished` with the current time. -/
def ProcessExecutor.add_executor (e : ProcessExecutor) (conn : Connection) (now : Int) :
    ProcessExecutor :=
  { e with connections := e.connections ++ [conn], _allocation_finished := now }

/-! ## Executor launcher (`src/server/manager.cpp`) -/

/-- Outcome of `ProcessExecutor::spawn` in the process that runs it: the child side builds
the argument vector and calls `execve`; the parent side returns a new handle.
`fork_failed` records that the error line `Fork failed!` was logged. -/
inductive SpawnOutcome where
  | child (out_file : String) (argv : List String)
  | parent (fork_failed : Bool) (e : ProcessExecutor)
  deriving DecidableEq, Repr

/-- The array `argv` built on the child side of `ProcessExecutor::spawn`, without the
terminating null pointer. Numbers are rendered by `std::to_string`. -/
def ProcessExecutor.spawn_argv (request : AllocationRequest) (exec : ExecutorSettings)
    (conn : ManagerConnection) : List String :=
  let client_port := toString request.listen_port
  let client_in_size := toString request.input_buf_size
  let client_func_size := toString request.func_buf_size
  let client_cores := toString request.cores
  let client_timeout := toString request.hot_timeout
  let executor_repetitions := toString exec.repetitions
  let executor_warmups := toString exec.warmup_iters
  let executor_recv_buf := toString exec.recv_buffer_size
  let executor_max_inline := toString exec.max_inline_data
  let mgr_port := toString conn.port
  let mgr_secret := toString conn.secret
  let mgr_buf_addr := toString conn.r_addr
  let mgr_buf_rkey := toString conn.r_key
  [ "bin/executor",
    "-a", request.listen_address,
    "-p", client_port,
    "--polling-mgr", "thread",
    "-r", executor_repetitions,
    "-x", executor_recv_buf,
    "-s", client_in_size,
    "--fast", client_cores,
    "--warmup-iters", executor_warmups,
    "--max-inline-data", executor_max_inline,
    "--func-size", client_func_size,
    "--timeout", client_timeout,
    "--mgr-address", conn.addr,
    "--mgr-port", mgr_port,
    "--mgr-secret", mgr_secret,
    "--mgr-buf-addr", mgr_buf_addr,
    "--mgr-buf-rkey", mgr_buf_rkey ]

/-- Constructor `ProcessExecutor{alloc_begin, pid}`: `_allocation_finished` starts equal to
`_allocation_begin`. -/
def ProcessExecutor.make (alloc_begin : Int) (pid : Int) : ProcessExecutor :=
  { _pid := pid, _allocation_begin := alloc_begin, _allocation_finished := alloc_begin,
    connections := [] }

/-- Launcher `ProcessExecutor::spawn`. `begin_time` is the clock reading taken before the
fork, `mypid` the value returned by `fork()`, `getpid` the value `getpid()` returns on the
child side. A negative `mypid` is logged; only `mypid == 0` takes the child branch, every
other value reaches `return new ProcessExecutor{begin, mypid}`. -/
def ProcessExecutor.spawn (request : AllocationRequest) (exec : ExecutorSettings)
    (conn : ManagerConnection) (begin_time : Int) (mypid : Int) (getpid : Int) :
    SpawnOutcome :=
  let fork_failed := decide (mypid < 0)
  if mypid = 0 then
    let mypid := getpid
    let out_file := "executor_" ++ toString mypid
    SpawnOutcome.child out_file (ProcessExecutor.spawn_argv request exec conn)
  else
    SpawnOutcome.parent fork_failed (ProcessExecutor.make begin_time mypid)

/-- Result of `waitpid(_pid, &status, WNOHANG)`: the returned pid and the status word. -/
structure WaitResult where
  return_pid : Int
  status : Nat
  deriving DecidableEq, Repr

/-- Status macro `WTERMSIG(status)`, the low seven bits. -/
def WTERMSIG (status : Nat) : Nat := status % 128

/-- Status macro `WEXITSTATUS(status)`, bits 8 to 15. -/
def WEXITSTATUS (status : Nat) : Nat := (status / 256) % 256

/-- Status macro `WIFEXITED(status)`: no terminating signal. -/
def WIFEXITED (status : Nat) : Bool := WTERMSIG status = 0

/-- Status macro `WIFSIGNALED(status)`: `((signed char)((status & 0x7f) + 1) >> 1) > 0`,
that is a terminating signal between 1 and 126. -/
def WIFSIGNALED (status : Nat) : Bool := 1 ≤ WTERMSIG status ∧ WTERMSIG status ≤ 126

/-- Status check `ProcessExecutor::check`, applied to the result of the non-blocking
`waitpid`. -/
def ProcessExecutor.check (w : WaitResult) : Status × Int :=
  if w.return_pid = 0 then
    (Status.RUNNING, 0)
  else if WIFEXITED w.status then
    (Status.FINISHED, (WEXITSTATUS w.status : Int))
  else if WIFSIGNALED w.status then
    (Status.FINISHED_FAIL, (WTERMSIG w.status : Int))
  else
    (Status.FINISHED_FAIL, -1)

/-! ## Connection listener (`Manager::listen`) -/

/-- What one pass of the listener loop obtains from outside: the event returned by
`poll_events` (`none` when `nonblocking_poll_events` timed out; the connection of an event
may be null) and the buffers registered for a newly constructed client. -/
structure ListenEnv where
  event : Option (Option Connection × ConnectionStatus)
  requests : Nat → AllocationRequest
  accounting : AccountingBuffer

/-- Enqueue `_client_queue.emplace(op, payload)`. -/
def Manager.enqueue (m : Manager) (op : Operation) (payload : msg_t) : Manager :=
  { m with _client_queue := m._client_queue ++ [(op, payload)] }

/-- One pass of the loop body of `Manager::listen`. -/
def Manager.listen_step (env : ListenEnv) (m : Manager) : Manager :=
  match env.event with
  | none => m
  | some (none, _) => m
  | some (some conn, conn_status) =>
    if conn_status = ConnectionStatus.DISCONNECTED then
      m.enqueue Operation.DISCONNECT (msg_t.connection conn)
    else if conn_status = ConnectionStatus.REQUESTED then
      if PrivateData.secret conn.private_data > 0 then
        m.enqueue Operation.CONNECT (msg_t.connection conn)
      else
        -- _state.accept(conn);
        let m1 := { m with trace := m.trace ++ [Op.accept conn.id] }
        -- Client client{conn, _state.pd()};
        let client := Client.make conn env.requests env.accounting
        let m2 := { m1 with trace := m1.trace ++ [Op.post_recv conn.id] }
        -- client._active = true;
        let client := { client with _active := true }
        m2.enqueue Operation.CONNECT (msg_t.client client)
    else
      m

/-- The listener loop over a finite sequence of passes. -/
def Manager.listen (envs : List ListenEnv) (m : Manager) : Manager :=
  envs.foldl (fun acc env => Manager.listen_step env acc) m

/-! ## RDMA poller (`Manager::poll_rdma`) -/

/-- What one iteration of the poller loop obtains from outside, per client key `i` and
position `j` in the polled batch: the completions returned by
`client.connection->receive_wcs().poll(false)`, the value of `fork()` and the clock
reading taken inside `spawn`, the clock reading taken when allocation time is accrued,
the result of `waitpid`, and the clock reading stamped by `add_executor`. -/
structure PollEnv where
  recv : Nat → List WorkCompletion
  fork : Nat → Nat → Int
  getpid : Int
  spawn_begin : Nat → Nat → Int
  now : Nat → Int
  attach_now : Int
  waitpid : Nat → WaitResult

/-- Conversion `int i = it->first` of a 32-bit unsigned key to `int`. -/
def to_int (k : Nat) : Int :=
  if k % 2 ^ 32 < 2 ^ 31 then ((k % 2 ^ 32 : Nat) : Int) else ((k % 2 ^ 32 : Nat) : Int) - 2 ^ 32

/-- The `int` that holds the result of an `int` computation whose mathematical value is
`x`: the low 32 bits of `x` read as a signed number. An overflowing `conn_count++` is
taken to wrap around in two's complement. -/
def wrap_int (x : Int) : Int := to_int (x % 2 ^ 32).toNat

/-- The brace initialiser passed to `spawn` by the poller:
`{ip_address, rdma_device_port, data.data(), addr, client.accounting.rkey()}` with
`data.secret(client.connection->qp()->qp_num)` and `addr = client.accounting.address()`. -/
def Manager.manager_connection (settings : Settings) (client : Client) : ManagerConnection :=
  { addr := settings.ip_address,
    port := settings.rdma_device_port,
    secret := PrivateData.data client.connection.qp_num,
    r_addr := client.accounting.address,
    r_key := client.accounting.rkey }

/-- Result of processing one registry entry: the updated client, whether its iterator was
pushed to `removals`, the calls made, and the halt marker. -/
structure ClientScan where
  client : Client
  remove : Bool
  ops : List Op
  halt : Option Halt

/-- The loop `for(int j = 0; j < std::get<1>(wcs); ++j)` over the polled completions of
the client stored under key `i`, from position `j` on. -/
def Manager.drain (env : PollEnv) (settings : Settings) (i : Nat) :
    Nat → List WorkCompletion → Client → ClientScan
  | _, [], client => { client := client, remove := false, ops := [], halt := none }
  | j, wc :: rest, client =>
    let id := wc.wr_id
    let cores := (client.allocation_requests id).cores
    if cores > 0 then
      let conn := Manager.manager_connection settings client
      match ProcessExecutor.spawn (client.allocation_requests id) settings.exec conn
          (env.spawn_begin i j) (env.fork i j) env.getpid with
      | SpawnOutcome.child out_file argv =>
        { client := client, remove := false, ops := [], halt := some (Halt.exec out_file argv) }
      | SpawnOutcome.parent _ e =>
        -- client.executor.reset(...)
        let r := Manager.drain env settings i (j + 1) rest { client with executor := some e }
        { r with ops := Op.spawn i conn e._pid :: r.ops }
    else
      let client :=
        match client.executor with
        | some e =>
          { client with
            allocation_time := client.allocation_time + (env.now i - e._allocation_finished) }
        | none => client
      -- client.disable(i); removals.push_back(it); break;
      { client := client.disable, remove := true, ops := [Op.disable i], halt := none }

/-- The block `if(client.active()) { refill; if(client.executor) { check ... } }`. -/
def Manager.reap (env : PollEnv) (i : Nat) (client : Client) : Client × List Op :=
  if client.active then
    match client.executor with
    | some e =>
      let status := ProcessExecutor.check (env.waitpid i)
      if status.1 ≠ Status.RUNNING then
        ({ client with
            allocation_time := client.allocation_time + (env.now i - e._allocation_finished),
            executor := none },
          [Op.refill i, Op.read_accounting i (to_int i)])
      else
        (client, [Op.refill i])
    | none => (client, [Op.refill i])
  else
    (client, [])

/-- Body of the loop over the registry for the entry stored under key `i`. -/
def Manager.scan_client (env : PollEnv) (settings : Settings) (i : Nat) (client : Client) :
    ClientScan :=
  let r := Manager.drain env settings i 0 (env.recv i) client
  match r.halt with
  | some _ => r
  | none =>
    let p := Manager.reap env i r.client
    { r with client := p.1, ops := r.ops ++ p.2 }

/-- Result of the loop over the registry: the entries after processing, the keys whose
iterators were pushed to `removals`, the calls made, and the halt marker. -/
structure RegistryScan where
  clients : Registry
  removals : List Nat
  ops : List Op
  halt : Option Halt

/-- The loop `for(auto it = _clients.begin(); it != _clients.end(); ++it)`. -/
def Manager.scan_clients (env : PollEnv) (settings : Settings) : Registry → RegistryScan
  | [] => { clients := [], removals := [], ops := [], halt := none }
  | (i, client) :: rest =>
    let r := Manager.scan_client env settings i client
    match r.halt with
    | some h =>
      { clients := (i, r.client) :: rest, removals := if r.remove then [i] else [],
        ops := r.ops, halt := some h }
    | none =>
      let rs := Manager.scan_clients env settings rest
      { clients := (i, r.client) :: rs.clients,
        removals := if r.remove then i :: rs.removals else rs.removals,
        ops := r.ops ++ rs.ops, halt := rs.halt }

/-- The loop `for(auto it : removals) _clients.erase(it)`. -/
def Registry.erase_all (r : Registry) (removals : List Nat) : Registry :=
  removals.foldl Registry.erase r

/-- The branch of the poller that acts on a control message. `attach_now` is the clock
reading used by `add_executor`. The counter `int conn_count` is incremented, as a 32-bit
signed integer, after either `CONNECT` branch has run to its end. -/
def Manager.handle_message (attach_now : Int) (msg : Operation × msg_t) (m : Manager) :
    Manager :=
  match msg with
  | (Operation.CONNECT, msg_t.connection conn) =>
    let qp_num := conn.private_data
    match Registry.find m._clients qp_num with
    | none =>
      { m with trace := m.trace ++ [Op.reject conn.id], conn_count := wrap_int (m.conn_count + 1) }
    | some client =>
      match client.executor with
      | none =>
        { m with trace := m.trace ++ [Op.accept conn.id],
                 halt := some (Halt.null_executor qp_num) }
      | some e =>
        { m with
          trace := m.trace ++ [Op.accept conn.id],
          _clients := Registry.modify m._clients qp_num
            (fun c => { c with executor := some (e.add_executor conn attach_now) }),
          conn_count := wrap_int (m.conn_count + 1) }
  | (Operation.CONNECT, msg_t.client client) =>
    { m with
      _clients := Registry.emplace m._clients client.connection.qp_num client,
      conn_count := wrap_int (m.conn_count + 1) }
  | (Operation.DISCONNECT, msg_t.connection conn) =>
    match Registry.find m._clients conn.qp_num with
    | some _ => { m with _clients := Registry.erase m._clients conn.qp_num }
    | none => m
  | (Operation.DISCONNECT, msg_t.client _) =>
    { m with halt := some Halt.bad_variant_access }

/-- The statement `if(conn_count > 0) _client_queue.pop();` that ends the handling of a
message. -/
def Manager.pop_if_counted (m : Manager) : Manager :=
  match m.halt with
  | some _ => m
  | none =>
    if m.conn_count > 0 then { m with _client_queue := m._client_queue.tail } else m

/-- Control intake of one iteration: `peek` when `conn_count > 0`, otherwise
`wait_dequeue_timed`, which removes the message it returns; then the message is handled. -/
def Manager.control_intake (env : PollEnv) (m : Manager) : Manager :=
  if m.conn_count > 0 then
    match m._client_queue with
    | [] => m
    | msg :: _ => Manager.pop_if_counted (Manager.handle_message env.attach_now msg m)
  else
    match m._client_queue with
    | [] => m
    | msg :: rest =>
      Manager.pop_if_counted
        (Manager.handle_message env.attach_now msg { m with _client_queue := rest })

/-- One iteration of the loop of `Manager::poll_rdma`: control intake, the loop over the
registry, and the batch deletion. -/
def Manager.poll_rdma_step (settings : Settings) (env : PollEnv) (m : Manager) : Manager :=
  let m1 := Manager.control_intake env m
  match m1.halt with
  | some _ => m1
  | none =>
    let s := Manager.scan_clients env settings m1._clients
    match s.halt with
    | some h => { m1 with _clients := s.clients, trace := m1.trace ++ s.ops, halt := some h }
    | none =>
      { m1 with _clients := Registry.erase_all s.clients s.removals,
                trace := m1.trace ++ s.ops }

/-- The poller loop over a finite sequence of iterations; a halted thread runs no further
iteration. -/
def Manager.poll_rdma (settings : Settings) : List PollEnv → Manager → Manager
  | [], m => m
  | env :: envs, m =>
    match m.halt with
    | some _ => m
    | none => Manager.poll_rdma settings envs (Manager.poll_rdma_step settings env m)

/-- The manager before any event: empty queue and registry, `conn_count = 0`. -/
def Manager.init : Manager :=
  { _client_queue := [], _clients := [], conn_count := 0, trace := [], halt := none }

/-- States the manager can be in: the initial state, followed by any interleaving of
listener passes and of poller iterations; the poller runs no iteration once halted. -/
inductive Manager.Reachable (settings : Settings) : Manager → Prop where
  | init : Manager.Reachable settings Manager.init
  | listen (env : ListenEnv) (m : Manager) :
      Manager.Reachable settings m → Manager.Reachable settings (Manager.listen_step env m)
  | poll (env : PollEnv) (m : Manager) :
      Manager.Reachable settings m → m.halt = none →
      Manager.Reachable settings (Manager.poll_rdma_step settings env m)

/-- Executor command line of spec section 6.2, as pairs of flag and value in the order in
which the spec lists them, every number in decimal. -/
def spec_cli (request : AllocationRequest) (exec : ExecutorSettings)
    (conn : ManagerConnection) : List (String × String) :=
  [ ("-a", request.listen_address),
    ("-p", toString request.listen_port),
    ("--polling-mgr", "thread"),
    ("-r", toString exec.repetitions),
    ("-x", toString exec.recv_buffer_size),
    ("-s", toString request.input_buf_size),
    ("--fast", toString request.cores),
    ("--warmup-iters", toString exec.warmup_iters),
    ("--max-inline-data", toString exec.max_inline_data),
    ("--func-size", toString request.func_buf_size),
    ("--timeout", toString request.hot_timeout),
    ("--mgr-address", conn.addr),
    ("--mgr-port", toString conn.port),
    ("--mgr-secret", toString conn.secret),
    ("--mgr-buf-addr", toString conn.r_addr),
    ("--mgr-buf-rkey", toString conn.r_key) ]

/-- Pairs of flag and value written out as one argument list. -/
def flatten_cli : List (String × String) → List String
  | [] => []
  | (flag, value) :: rest => flag :: value :: flatten_cli rest

/-! ## Legacy manager (`src/server/manager.cpp`): the executor secret -/

/-- The member `_secret` as set by the constructor `Manager::Manager`: `_secret(0x1234)`. -/
def Legacy._secret : Nat := 0x1234

/-- The local `int secret = (i << 16) | (this->_secret & 0xFFFF)` of the legacy poller, for
the client index `i`, as a 32-bit signed integer. -/
def Legacy.executor_secret (i : Nat) (secret : Nat) : Int :=
  to_int ((i <<< 16) ||| (secret &&& 0xFFFF))

/-- The private data a connection carries when it was opened with the secret `secret`: the
same 32 bits read as an unsigned word. -/
def Legacy.private_data_of (secret : Int) : Nat := (secret % 2 ^ 32).toNat

/-- How the legacy listener treats a connection, by its private data. -/
inductive Legacy.Classified where
  | executor (client : Nat)
  | unknown
  | new_client
  deriving DecidableEq, Repr

/-- The branches of `Manager::listen` of the legacy manager: non-zero private data whose
low 16 bits are the manager secret is the executor of client `_private_data >> 16`; other
non-zero private data is not understood; zero private data is a new client. -/
def Legacy.listen_classify (_private_data : Nat) (secret : Nat) : Legacy.Classified :=
  if _private_data ≠ 0 then
    if (_private_data &&& 0xFFFF) = secret then
      Legacy.Classified.executor (_private_data >>> 16)
    else
      Legacy.Classified.unknown
  else
    Legacy.Classified.new_client

/-- Calls of the connection-management interface (`accept`, `reject`). -/
def Op.is_cm : Op → Bool
  | Op.accept _ => true
  | Op.reject _ => true
  | _ => false

/-! ## Concrete inputs used in the examples -/

/-- The allocation request of scenario S1 with a chosen `cores` field. -/
def sample_request (cores : Int) : AllocationRequest :=
  { listen_address := "10.0.0.2", listen_port := 9000, input_buf_size := 4096,
    func_buf_size := 4096, hot_timeout := 10, cores := cores }

/-- Manager settings used in the examples. -/
def sample_settings : Settings :=
  { exec := { repetitions := 1, warmup_iters := 0, recv_buffer_size := 32,
              max_inline_data := 0 },
    ip_address := "10.0.0.1", rdma_device_port := 10000 }

/-- An accounting region of one slot. -/
def sample_accounting : AccountingBuffer := { address := 4096, rkey := 77, size := 1 }

/-- A client on connection `id` with queue pair `qp`, every receive slot holding a request
with the given `cores`, and the given executor handle. -/
def sample_client (id qp : Nat) (cores : Int) (executor : Option ProcessExecutor) : Client :=
  { connection := { id := id, qp_num := qp, private_data := 0 },
    allocation_requests := fun _ => sample_request cores,
    accounting := sample_accounting,
    executor := executor, allocation_time := 0, _active := true }

/-- An iteration in which no client has completions, `fork` returns pid 4242 at time 100,
every executor is still running, and the clock reads 250 when time is accrued. -/
def sample_env : PollEnv :=
  { recv := fun _ => [], fork := fun _ _ => 4242, getpid := 1, spawn_begin := fun _ _ => 100,
    now := fun _ => 250, attach_now := 120,
    waitpid := fun _ => { return_pid := 0, status := 0 } }

/-- A pass of the listener that sees one event on connection `conn`; a client constructed
in this pass gets slots holding a request with the given `cores`. -/
def sample_listen_env (conn : Connection) (status : ConnectionStatus) (cores : Int) :
    ListenEnv :=
  { event := some (some conn, status), requests := fun _ => sample_request cores,
    accounting := sample_accounting }

/-- An executor handle spawned at time 100 with pid 4242. -/
def sample_executor : ProcessExecutor := ProcessExecutor.make 100 4242

/-- The iteration of `sample_env` in which the client under key `q` has the polled
completions `wcs`. -/
def recv_env (q : Nat) (wcs : List WorkCompletion) : PollEnv :=
  { sample_env with recv := fun i => if i = q then wcs else [] }

/-- A manager whose control queue holds `msgs` and whose registry holds `r`; the poller has
counted no connection yet. -/
def sample_manager (msgs : List (Operation × msg_t)) (r : Registry) : Manager :=
  { Manager.init with _client_queue := msgs, _clients := r }

/-- An iteration in which client 7 has one completion and `fork` returns pid 4243 at
time 200. -/
def respawn_env : PollEnv :=
  { recv_env 7 [⟨0, 0⟩] with fork := fun _ _ => 4243, spawn_begin := fun _ _ => 200 }

/-- An iteration in which client 7 has two back-to-back completions; the two forks return
pids 4242 and 4243 at times 100 and 200. -/
def double_env : PollEnv :=
  { recv_env 7 [⟨0, 0⟩, ⟨1, 0⟩] with
    fork := fun _ j => 4242 + (j : Int), spawn_begin := fun _ j => 100 + 100 * (j : Int) }

/-- An iteration in which client 7 has one completion and `fork` fails with -1. -/
def failed_fork_env : PollEnv :=
  { recv_env 7 [⟨0, 0⟩] with fork := fun _ _ => -1 }

/-- An iteration in which every client has one polled completion, for slot 0. -/
def all_recv_env : PollEnv := { sample_env with recv := fun _ => [⟨0, 0⟩] }

/-- An iteration in which client 7 has one completion and the process that runs `spawn`
is the child of the fork, with pid 4242. -/
def child_env : PollEnv :=
  { recv_env 7 [⟨0, 0⟩] with fork := fun _ _ => 0, getpid := 4242 }

/-- An iteration without completions in which `waitpid` reports that every executor was
terminated by signal 9. -/
def killed_env : PollEnv :=
  { sample_env with waitpid := fun _ => { return_pid := 4242, status := 9 } }

/-- The state reached when the listener has seen a new client on connection 1, queue
pair 7, and the poller has run one iteration without completions: client 7 is registered
and has no executor. -/
def registered_state : Manager :=
  Manager.poll_rdma_step sample_settings sample_env
    (Manager.listen_step (sample_listen_env ⟨1, 7, 0⟩ ConnectionStatus.REQUESTED 1)
      Manager.init)

/-- The state reached from `registered_state` when client 7 has sent a request with cores
1 and the poller has spawned the executor with pid 4242. -/
def spawned_state : Manager :=
  Manager.poll_rdma_step sample_settings (recv_env 7 [⟨0, 0⟩]) registered_state

/-- The state reached from `spawned_state` when the executor was terminated by signal 9
and the poller has reaped it. -/
def reaped_state : Manager :=
  Manager.poll_rdma_step sample_settings killed_env spawned_state

/-! ## Registry lemmas -/

theorem Registry.find_eq_none_iff (r : Registry) (q : Nat) :
    Registry.find r q = none ↔ q ∉ r.keys := by
  induction r with
  | nil => simp [Registry.find, Registry.keys]
  | cons hd tl ih =>
    obtain ⟨k, c⟩ := hd
    by_cases h : k = q
    · simp [Registry.find, Registry.keys, h]
    · have hq : ¬ q = k := fun e => h e.symm
      simpa [Registry.find, Registry.keys, h, hq] using ih

theorem Registry.find_isSome_iff (r : Registry) (q : Nat) :
    (∃ c, Registry.find r q = some c) ↔ q ∈ r.keys := by
  constructor
  · rintro ⟨c, hc⟩
    by_contra hq
    rw [(Registry.find_eq_none_iff r q).mpr hq] at hc
    cases hc
  · intro hq
    cases hf : Registry.find r q with
    | none => exact absurd hq ((Registry.find_eq_none_iff r q).mp hf)
    | some c => exact ⟨c, rfl⟩

theorem Registry.find_mem (r : Registry) (q : Nat) (c : Client)
    (h : Registry.find r q = some c) : (q, c) ∈ r := by
  induction r with
  | nil => simp [Registry.find] at h
  | cons hd tl ih =>
    obtain ⟨k, c0⟩ := hd
    by_cases hk : k = q
    · simp [Registry.find, hk] at h
      simp [hk, h]
    · simp [Registry.find, hk] at h
      exact List.mem_cons_of_mem _ (ih h)

theorem Registry.mem_keys_of_mem (r : Registry) (q : Nat) (c : Client) (h : (q, c) ∈ r) :
    q ∈ r.keys :=
  List.mem_map.mpr ⟨(q, c), h, rfl⟩

theorem Registry.find_of_mem (r : Registry) (hwf : r.WF) (q : Nat) (c : Client)
    (h : (q, c) ∈ r) : Registry.find r q = some c := by
  induction r with
  | nil => cases h
  | cons hd tl ih =>
    obtain ⟨k, c0⟩ := hd
    have hnd : k ∉ Registry.keys tl ∧ Registry.WF tl := by
      simpa [Registry.WF, Registry.keys] using hwf
    rcases List.mem_cons.mp h with heq | hmem
    · cases heq
      simp [Registry.find]
    · have hq : q ∈ Registry.keys tl := Registry.mem_keys_of_mem tl q c hmem
      have hk : k ≠ q := fun e => hnd.1 (e ▸ hq)
      simp [Registry.find, hk]
      exact ih hnd.2 hmem

theorem Registry.keys_emplace (r : Registry) (k : Nat) (c : Client) :
    (Registry.emplace r k c).keys = if k ∈ r.keys then r.keys else r.keys ++ [k] := by
  unfold Registry.emplace
  cases hf : Registry.find r k with
  | none =>
    have hk : k ∉ r.keys := (Registry.find_eq_none_iff r k).mp hf
    rw [if_neg hk]
    simp [Registry.keys]
  | some c0 =>
    have := (Registry.find_isSome_iff r k).mp ⟨c0, hf⟩
    simp [this]

theorem Registry.WF_emplace (r : Registry) (k : Nat) (c : Client) (h : r.WF) :
    (Registry.emplace r k c).WF := by
  unfold Registry.WF at *
  rw [Registry.keys_emplace]
  by_cases hk : k ∈ r.keys
  · simpa [hk] using h
  · simp only [hk, if_false]
    exact List.Nodup.append h (List.nodup_singleton k) (by simpa using hk)

theorem Registry.keys_modify (r : Registry) (q : Nat) (f : Client → Client) :
    (Registry.modify r q f).keys = r.keys := by
  induction r with
  | nil => rfl
  | cons hd tl ih =>
    obtain ⟨k, c⟩ := hd
    by_cases hk : k = q
    · simp [Registry.modify, Registry.keys, hk]
    · simpa [Registry.modify, Registry.keys, hk] using ih

theorem Registry.keys_erase (r : Registry) (q : Nat) :
    (Registry.erase r q).keys = r.keys.erase q := by
  induction r with
  | nil => rfl
  | cons hd tl ih =>
    obtain ⟨k, c⟩ := hd
    by_cases hk : k = q
    · simp [Registry.erase, Registry.keys, hk]
    · have : (Registry.erase tl q).map Prod.fst = (tl.map Prod.fst).erase q := ih
      simp [Registry.erase, Registry.keys, hk, List.erase_cons, this]

theorem Registry.WF_erase (r : Registry) (q : Nat) (h : r.WF) : (Registry.erase r q).WF := by
  unfold Registry.WF at *
  rw [Registry.keys_erase]
  exact h.erase q

theorem Registry.mem_keys_erase (r : Registry) (h : r.WF) (q k : Nat) :
    k ∈ (Registry.erase r q).keys ↔ k ≠ q ∧ k ∈ r.keys := by
  rw [Registry.keys_erase]
  exact List.Nodup.mem_erase_iff h

theorem Registry.find_erase_ne (r : Registry) (q k : Nat) (hk : k ≠ q) :
    Registry.find (Registry.erase r q) k = Registry.find r k := by
  induction r with
  | nil => rfl
  | cons hd tl ih =>
    obtain ⟨k0, c⟩ := hd
    by_cases h0 : k0 = q
    · have hqk : ¬ q = k := fun e => hk e.symm
      subst h0
      simp [Registry.erase, Registry.find, hqk]
    · by_cases h1 : k0 = k
      · subst h1
        simp [Registry.erase, Registry.find, h0]
      · simp [Registry.erase, Registry.find, h0, h1, ih]

theorem Registry.erase_absent (r : Registry) (q : Nat) (h : q ∉ r.keys) :
    Registry.erase r q = r := by
  induction r with
  | nil => rfl
  | cons hd tl ih =>
    obtain ⟨k, c⟩ := hd
    have hh : ¬ q = k ∧ q ∉ Registry.keys tl := by
      simpa [Registry.keys] using h
    have hk : ¬ k = q := fun e => hh.1 e.symm
    simp [Registry.erase, hk, ih hh.2]

theorem Registry.WF_erase_all (removals : List Nat) (r : Registry) (h : r.WF) :
    (Registry.erase_all r removals).WF := by
  induction removals generalizing r with
  | nil => simpa [Registry.erase_all] using h
  | cons q qs ih =>
    simpa [Registry.erase_all] using ih (Registry.erase r q) (Registry.WF_erase r q h)

theorem Registry.mem_keys_erase_all (removals : List Nat) (r : Registry) (h : r.WF) (k : Nat) :
    k ∈ (Registry.erase_all r removals).keys ↔ k ∈ r.keys ∧ k ∉ removals := by
  induction removals generalizing r with
  | nil => simp [Registry.erase_all]
  | cons q qs ih =>
    have := ih (Registry.erase r q) (Registry.WF_erase r q h)
    simp only [Registry.erase_all, List.foldl_cons] at this ⊢
    rw [this, Registry.mem_keys_erase r h]
    simp only [List.mem_cons, not_or]
    tauto

theorem Manager.drain_requests (env : PollEnv) (settings : Settings) (i : Nat)
    (wcs : List WorkCompletion) :
    ∀ (j : Nat) (client : Client),
      (Manager.drain env settings i j wcs client).client.allocation_requests
        = client.allocation_requests := by
  induction wcs with
  | nil => intro j client; rfl
  | cons wc rest ih =>
    intro j client
    unfold Manager.drain
    by_cases hc : (client.allocation_requests wc.wr_id).cores > 0
    · simp only [hc, if_true]
      cases hs : ProcessExecutor.spawn (client.allocation_requests wc.wr_id) settings.exec
          (Manager.manager_connection settings client) (env.spawn_begin i j) (env.fork i j)
          env.getpid with
      | child out_file argv => rfl
      | parent ff e => simpa using ih (j + 1) { client with executor := some e }
    · simp only [hc, if_false]
      cases client.executor <;> rfl

theorem Manager.drain_connection (env : PollEnv) (settings : Settings) (i : Nat)
    (wcs : List WorkCompletion) :
    ∀ (j : Nat) (client : Client),
      (Manager.drain env settings i j wcs client).client.connection = client.connection := by
  induction wcs with
  | nil => intro j client; rfl
  | cons wc rest ih =>
    intro j client
    unfold Manager.drain
    by_cases hc : (client.allocation_requests wc.wr_id).cores > 0
    · simp only [hc, if_true]
      cases hs : ProcessExecutor.spawn (client.allocation_requests wc.wr_id) settings.exec
          (Manager.manager_connection settings client) (env.spawn_begin i j) (env.fork i j)
          env.getpid with
      | child out_file argv => rfl
      | parent ff e => simpa using ih (j + 1) { client with executor := some e }
    · simp only [hc, if_false]
      cases client.executor <;> rfl

theorem Manager.drain_remove_elim (env : PollEnv) (settings : Settings) (i : Nat)
    (wcs : List WorkCompletion) :
    ∀ (j : Nat) (client : Client),
      (Manager.drain env settings i j wcs client).remove = true →
      ∃ wc ∈ wcs, (client.allocation_requests wc.wr_id).cores ≤ 0 := by
  induction wcs with
  | nil => intro j client h; simp [Manager.drain] at h
  | cons wc rest ih =>
    intro j client h
    by_cases hc : (client.allocation_requests wc.wr_id).cores > 0
    · unfold Manager.drain at h
      simp only [hc, if_true] at h
      cases hs : ProcessExecutor.spawn (client.allocation_requests wc.wr_id) settings.exec
          (Manager.manager_connection settings client) (env.spawn_begin i j) (env.fork i j)
          env.getpid with
      | child out_file argv => rw [hs] at h; simp at h
      | parent ff e =>
        rw [hs] at h
        obtain ⟨w, hw, hcw⟩ := ih (j + 1) { client with executor := some e } (by simpa using h)
        exact ⟨w, List.mem_cons_of_mem _ hw, hcw⟩
    · exact ⟨wc, List.mem_cons_self _ _, not_lt.mp hc⟩

theorem Manager.drain_remove_intro (env : PollEnv) (settings : Settings) (i : Nat)
    (wcs : List WorkCompletion) :
    ∀ (j : Nat) (client : Client),
      (Manager.drain env settings i j wcs client).halt = none →
      (∃ wc ∈ wcs, (client.allocation_requests wc.wr_id).cores ≤ 0) →
      (Manager.drain env settings i j wcs client).remove = true := by
  induction wcs with
  | nil => intro j client _ h; simp at h
  | cons wc rest ih =>
    intro j client hh h
    by_cases hc : (client.allocation_requests wc.wr_id).cores > 0
    · unfold Manager.drain at hh ⊢
      simp only [hc, if_true] at hh ⊢
      cases hs : ProcessExecutor.spawn (client.allocation_requests wc.wr_id) settings.exec
          (Manager.manager_connection settings client) (env.spawn_begin i j) (env.fork i j)
          env.getpid with
      | child out_file argv => rw [hs] at hh; simp at hh
      | parent ff e =>
        rw [hs] at hh
        obtain ⟨w, hw, hcw⟩ := h
        have hw2 : w ∈ rest := by
          rcases List.mem_cons.mp hw with e1 | e1
          · subst e1; exact absurd hc (not_lt.mpr hcw)
          · exact e1
        simpa using ih (j + 1) { client with executor := some e } (by simpa using hh)
          ⟨w, hw2, hcw⟩
    · unfold Manager.drain
      simp only [hc, if_false]

theorem Manager.drain_ops_not_cm (env : PollEnv) (settings : Settings) (i : Nat)
    (wcs : List WorkCompletion) :
    ∀ (j : Nat) (client : Client),
      ∀ o ∈ (Manager.drain env settings i j wcs client).ops, o.is_cm = false := by
  induction wcs with
  | nil => intro j client o ho; simp [Manager.drain] at ho
  | cons wc rest ih =>
    intro j client o ho
    unfold Manager.drain at ho
    by_cases hc : (client.allocation_requests wc.wr_id).cores > 0
    · simp only [hc, if_true] at ho
      cases hs : ProcessExecutor.spawn (client.allocation_requests wc.wr_id) settings.exec
          (Manager.manager_connection settings client) (env.spawn_begin i j) (env.fork i j)
          env.getpid with
      | child out_file argv => rw [hs] at ho; simp at ho
      | parent ff e =>
        rw [hs] at ho
        simp only [List.mem_cons] at ho
        rcases ho with e1 | e1
        · subst e1; rfl
        · exact ih (j + 1) _ o e1
    · simp only [hc, if_false, List.mem_singleton] at ho
      subst ho; rfl

theorem Manager.reap_requests (env : PollEnv) (i : Nat) (client : Client) :
    (Manager.reap env i client).1.allocation_requests = client.allocation_requests ∧
    (Manager.reap env i client).1.connection = client.connection := by
  unfold Manager.reap
  by_cases ha : client.active = true
  · simp only [ha, if_true]
    cases client.executor with
    | none => exact ⟨rfl, rfl⟩
    | some e =>
      by_cases hs : (ProcessExecutor.check (env.waitpid i)).1 ≠ Status.RUNNING
      · dsimp only
        rw [if_pos hs]; exact ⟨rfl, rfl⟩
      · dsimp only
        rw [if_neg hs]; exact ⟨rfl, rfl⟩
  · simp only [ha]; exact ⟨rfl, rfl⟩

theorem Manager.reap_ops_not_cm (env : PollEnv) (i : Nat) (client : Client) :
    ∀ o ∈ (Manager.reap env i client).2, o.is_cm = false := by
  intro o ho
  unfold Manager.reap at ho
  by_cases ha : client.active = true
  · simp only [ha, if_true] at ho
    cases he : client.executor with
    | none =>
      rw [he] at ho
      simp only [List.mem_singleton] at ho
      subst ho; rfl
    | some e =>
      rw [he] at ho
      by_cases hs : (ProcessExecutor.check (env.waitpid i)).1 ≠ Status.RUNNING
      · dsimp only at ho
        rw [if_pos hs] at ho
        simp only [List.mem_cons, List.mem_singleton] at ho
        rcases ho with e1 | e1 | e1
        · subst e1; rfl
        · subst e1; rfl
        · simp at e1
      · dsimp only at ho
        rw [if_neg hs] at ho
        simp only [List.mem_singleton] at ho
        subst ho; rfl
  · simp [ha] at ho

theorem Manager.scan_client_remove (env : PollEnv) (settings : Settings) (i : Nat)
    (client : Client) :
    (Manager.scan_client env settings i client).remove
      = (Manager.drain env settings i 0 (env.recv i) client).remove := by
  unfold Manager.scan_client
  cases h : (Manager.drain env settings i 0 (env.recv i) client).halt <;> simp [h]

theorem Manager.scan_client_halt (env : PollEnv) (settings : Settings) (i : Nat)
    (client : Client) :
    (Manager.scan_client env settings i client).halt
      = (Manager.drain env settings i 0 (env.recv i) client).halt := by
  unfold Manager.scan_client
  cases h : (Manager.drain env settings i 0 (env.recv i) client).halt <;> simp [h]

theorem Manager.scan_client_connection (env : PollEnv) (settings : Settings) (i : Nat)
    (client : Client) :
    (Manager.scan_client env settings i client).client.connection = client.connection := by
  unfold Manager.scan_client
  cases h : (Manager.drain env settings i 0 (env.recv i) client).halt with
  | some x => simpa [h] using Manager.drain_connection env settings i (env.recv i) 0 client
  | none =>
    simp only [h]
    rw [(Manager.reap_requests env i _).2]
    exact Manager.drain_connection env settings i (env.recv i) 0 client

theorem Manager.scan_client_ops_not_cm (env : PollEnv) (settings : Settings) (i : Nat)
    (client : Client) :
    ∀ o ∈ (Manager.scan_client env settings i client).ops, o.is_cm = false := by
  intro o ho
  unfold Manager.scan_client at ho
  cases h : (Manager.drain env settings i 0 (env.recv i) client).halt with
  | some x =>
    simp only [h] at ho
    exact Manager.drain_ops_not_cm env settings i (env.recv i) 0 client o ho
  | none =>
    simp only [h, List.mem_append] at ho
    rcases ho with e1 | e1
    · exact Manager.drain_ops_not_cm env settings i (env.recv i) 0 client o e1
    · exact Manager.reap_ops_not_cm env i _ o e1

/-- A client is marked for removal only when one of its polled completions indexes a slot
with `cores <= 0`. -/
theorem Manager.scan_client_remove_elim (env : PollEnv) (settings : Settings) (i : Nat)
    (client : Client) (h : (Manager.scan_client env settings i client).remove = true) :
    ∃ wc ∈ env.recv i, (client.allocation_requests wc.wr_id).cores ≤ 0 := by
  rw [Manager.scan_client_remove] at h
  exact Manager.drain_remove_elim env settings i (env.recv i) 0 client h

theorem Manager.scan_client_remove_intro (env : PollEnv) (settings : Settings) (i : Nat)
    (client : Client) (hh : (Manager.scan_client env settings i client).halt = none)
    (h : ∃ wc ∈ env.recv i, (client.allocation_requests wc.wr_id).cores ≤ 0) :
    (Manager.scan_client env settings i client).remove = true := by
  rw [Manager.scan_client_halt] at hh
  rw [Manager.scan_client_remove]
  exact Manager.drain_remove_intro env settings i (env.recv i) 0 client hh h

theorem Manager.scan_clients_keys (env : PollEnv) (settings : Settings) (r : Registry) :
    (Manager.scan_clients env settings r).clients.keys = r.keys := by
  induction r with
  | nil => rfl
  | cons hd tl ih =>
    obtain ⟨i, c⟩ := hd
    unfold Manager.scan_clients
    cases h : (Manager.scan_client env settings i c).halt with
    | some x => simp [h, Registry.keys]
    | none =>
      have ih2 : (Manager.scan_clients env settings tl).clients.map Prod.fst
          = tl.map Prod.fst := ih
      simp [h, Registry.keys, ih2]

theorem Manager.scan_clients_removals_elim (env : PollEnv) (settings : Settings)
    (r : Registry) (k : Nat) (hk : k ∈ (Manager.scan_clients env settings r).removals) :
    ∃ c, (k, c) ∈ r ∧ (Manager.scan_client env settings k c).remove = true := by
  induction r with
  | nil => simp [Manager.scan_clients] at hk
  | cons hd tl ih =>
    obtain ⟨i, c⟩ := hd
    unfold Manager.scan_clients at hk
    cases h : (Manager.scan_client env settings i c).halt with
    | some x =>
      simp only [h] at hk
      by_cases hr : (Manager.scan_client env settings i c).remove = true
      · simp only [hr, if_true, List.mem_singleton] at hk
        subst hk
        exact ⟨c, List.mem_cons_self _ _, hr⟩
      · simp [hr] at hk
    | none =>
      simp only [h] at hk
      by_cases hr : (Manager.scan_client env settings i c).remove = true
      · simp only [hr, if_true, List.mem_cons] at hk
        rcases hk with e1 | e1
        · subst e1
          exact ⟨c, List.mem_cons_self _ _, hr⟩
        · obtain ⟨c2, hm, hr2⟩ := ih e1
          exact ⟨c2, List.mem_cons_of_mem _ hm, hr2⟩
      · simp only [hr] at hk
        obtain ⟨c2, hm, hr2⟩ := ih (by simpa using hk)
        exact ⟨c2, List.mem_cons_of_mem _ hm, hr2⟩

theorem Manager.scan_clients_removals_intro (env : PollEnv) (settings : Settings)
    (r : Registry) (hh : (Manager.scan_clients env settings r).halt = none)
    (k : Nat) (c : Client) (hm : (k, c) ∈ r) :
    (Manager.scan_client env settings k c).halt = none ∧
    ((Manager.scan_client env settings k c).remove = true →
      k ∈ (Manager.scan_clients env settings r).removals) := by
  induction r with
  | nil => cases hm
  | cons hd tl ih =>
    obtain ⟨i, c0⟩ := hd
    unfold Manager.scan_clients at hh ⊢
    cases h : (Manager.scan_client env settings i c0).halt with
    | some x => simp [h] at hh
    | none =>
      simp only [h] at hh ⊢
      rcases List.mem_cons.mp hm with e1 | e1
      · cases e1
        refine ⟨h, fun hr => ?_⟩
        simp [hr]
      · obtain ⟨h1, h2⟩ := ih hh e1
        refine ⟨h1, fun hr => ?_⟩
        by_cases hr0 : (Manager.scan_client env settings i c0).remove = true
        · simp only [hr0, if_true]
          exact List.mem_cons_of_mem _ (h2 hr)
        · simp only [hr0]
          exact h2 hr

theorem Manager.scan_clients_ops_not_cm (env : PollEnv) (settings : Settings)
    (r : Registry) : ∀ o ∈ (Manager.scan_clients env settings r).ops, o.is_cm = false := by
  induction r with
  | nil => intro o ho; simp [Manager.scan_clients] at ho
  | cons hd tl ih =>
    obtain ⟨i, c⟩ := hd
    intro o ho
    unfold Manager.scan_clients at ho
    cases h : (Manager.scan_client env settings i c).halt with
    | some x =>
      simp only [h] at ho
      exact Manager.scan_client_ops_not_cm env settings i c o ho
    | none =>
      simp only [h, List.mem_append] at ho
      rcases ho with e1 | e1
      · exact Manager.scan_client_ops_not_cm env settings i c o e1
      · exact ih o e1

theorem Manager.scan_clients_keyed (env : PollEnv) (settings : Settings) (r : Registry)
    (h : r.Keyed) : (Manager.scan_clients env settings r).clients.Keyed := by
  induction r with
  | nil => intro k c hm; simp [Manager.scan_clients] at hm
  | cons hd tl ih =>
    obtain ⟨i, c0⟩ := hd
    have h0 : c0.connection.qp_num = i := h i c0 (List.mem_cons_self _ _)
    have htl : Registry.Keyed tl := fun k c hm => h k c (List.mem_cons_of_mem _ hm)
    intro k c hm
    unfold Manager.scan_clients at hm
    cases hh : (Manager.scan_client env settings i c0).halt with
    | some x =>
      simp only [hh, List.mem_cons] at hm
      rcases hm with e1 | e1
      · cases e1
        rw [Manager.scan_client_connection]; exact h0
      · exact htl k c e1
    | none =>
      simp only [hh, List.mem_cons] at hm
      rcases hm with e1 | e1
      · cases e1
        rw [Manager.scan_client_connection]; exact h0
      · exact ih htl k c e1

theorem Registry.keys_erase_all_subset (removals : List Nat) (r : Registry) (k : Nat)
    (h : k ∈ (Registry.erase_all r removals).keys) : k ∈ r.keys := by
  induction removals generalizing r with
  | nil => simpa [Registry.erase_all] using h
  | cons q qs ih =>
    have h1 : k ∈ (Registry.erase r q).keys := ih (Registry.erase r q) (by
      simpa [Registry.erase_all] using h)
    rw [Registry.keys_erase] at h1
    exact List.mem_of_mem_erase h1

/-- The registry after an iteration has no key that was absent after the control intake. -/
theorem Manager.poll_rdma_step_keys_subset (settings : Settings) (env : PollEnv)
    (m : Manager) (k : Nat) (h : k ∈ (Manager.poll_rdma_step settings env m)._clients.keys) :
    k ∈ (Manager.control_intake env m)._clients.keys := by
  unfold Manager.poll_rdma_step at h
  cases h1 : (Manager.control_intake env m).halt with
  | some x => simpa [h1] using h
  | none =>
    simp only [h1] at h
    cases h2 : (Manager.scan_clients env settings (Manager.control_intake env m)._clients).halt with
    | some y =>
      simp only [h2] at h
      rw [Manager.scan_clients_keys] at h
      exact h
    | none =>
      simp only [h2] at h
      have := Registry.keys_erase_all_subset _ _ k h
      rw [Manager.scan_clients_keys] at this
      exact this

/-- A client none of whose polled completions indexes a slot with `cores <= 0` is still in
the registry after the iteration. -/
theorem Manager.poll_rdma_step_keeps (settings : Settings) (env : PollEnv) (m : Manager)
    (hwf : (Manager.control_intake env m)._clients.WF) (k : Nat) (c : Client)
    (hm : (k, c) ∈ (Manager.control_intake env m)._clients)
    (hc : ∀ wc ∈ env.recv k, 0 < (c.allocation_requests wc.wr_id).cores) :
    k ∈ (Manager.poll_rdma_step settings env m)._clients.keys := by
  have hk : k ∈ (Manager.control_intake env m)._clients.keys :=
    Registry.mem_keys_of_mem _ k c hm
  have hnr : k ∉ (Manager.scan_clients env settings
      (Manager.control_intake env m)._clients).removals := by
    intro hr
    obtain ⟨c2, hm2, hr2⟩ := Manager.scan_clients_removals_elim env settings _ k hr
    have e1 := Registry.find_of_mem _ hwf k c hm
    have e2 := Registry.find_of_mem _ hwf k c2 hm2
    have : c2 = c := by
      rw [e1] at e2
      exact (Option.some.inj e2).symm
    subst this
    obtain ⟨wc, hw, hcw⟩ := Manager.scan_client_remove_elim env settings k c2 hr2
    exact absurd (hc wc hw) (not_lt.mpr hcw)
  unfold Manager.poll_rdma_step
  cases h1 : (Manager.control_intake env m).halt with
  | some x => simpa [h1] using hk
  | none =>
    simp only [h1]
    cases h2 : (Manager.scan_clients env settings (Manager.control_intake env m)._clients).halt with
    | some y =>
      simp only [h2]
      rw [Manager.scan_clients_keys]
      exact hk
    | none =>
      simp only [h2]
      have hwf2 : (Manager.scan_clients env settings
          (Manager.control_intake env m)._clients).clients.WF := by
        unfold Registry.WF
        rw [Manager.scan_clients_keys]
        exact hwf
      rw [Registry.mem_keys_erase_all _ _ hwf2]
      rw [Manager.scan_clients_keys]
      exact ⟨hk, hnr⟩

/-- A client one of whose polled completions indexes a slot with `cores <= 0` is no longer
in the registry when the iteration has run to its end. -/
theorem Manager.poll_rdma_step_removes (settings : Settings) (env : PollEnv) (m : Manager)
    (hwf : (Manager.control_intake env m)._clients.WF)
    (hh : (Manager.poll_rdma_step settings env m).halt = none) (k : Nat) (c : Client)
    (hm : (k, c) ∈ (Manager.control_intake env m)._clients)
    (hc : ∃ wc ∈ env.recv k, (c.allocation_requests wc.wr_id).cores ≤ 0) :
    k ∉ (Manager.poll_rdma_step settings env m)._clients.keys := by
  unfold Manager.poll_rdma_step at hh ⊢
  cases h1 : (Manager.control_intake env m).halt with
  | some x => simp [h1] at hh
  | none =>
    simp only [h1] at hh ⊢
    cases h2 : (Manager.scan_clients env settings (Manager.control_intake env m)._clients).halt with
    | some y => simp [h2] at hh
    | none =>
      simp only [h2]
      have hwf2 : (Manager.scan_clients env settings
          (Manager.control_intake env m)._clients).clients.WF := by
        unfold Registry.WF
        rw [Manager.scan_clients_keys]
        exact hwf
      rw [Registry.mem_keys_erase_all _ _ hwf2]
      obtain ⟨hh1, hh2⟩ := Manager.scan_clients_removals_intro env settings _ h2 k c hm
      have := hh2 (Manager.scan_client_remove_intro env settings k c hh1 hc)
      tauto

/-- The calls made by an iteration after the control intake are appended to the trace, and
none of them is a connection-management call. -/
theorem Manager.poll_rdma_step_trace (settings : Settings) (env : PollEnv) (m : Manager) :
    ∃ ops, (Manager.poll_rdma_step settings env m).trace
        = (Manager.control_intake env m).trace ++ ops ∧ ∀ o ∈ ops, o.is_cm = false := by
  unfold Manager.poll_rdma_step
  cases h1 : (Manager.control_intake env m).halt with
  | some x => exact ⟨[], by simp [h1], by simp⟩
  | none =>
    simp only [h1]
    refine ⟨(Manager.scan_clients env settings (Manager.control_intake env m)._clients).ops,
      ?_, Manager.scan_clients_ops_not_cm env settings _⟩
    cases h2 : (Manager.scan_clients env settings (Manager.control_intake env m)._clients).halt
      <;> simp [h2]

theorem Manager.pop_if_counted_clients (m : Manager) :
    (Manager.pop_if_counted m)._clients = m._clients := by
  unfold Manager.pop_if_counted
  cases m.halt with
  | some x => rfl
  | none => by_cases h : m.conn_count > 0 <;> simp [h]

theorem Manager.pop_if_counted_trace (m : Manager) :
    (Manager.pop_if_counted m).trace = m.trace := by
  unfold Manager.pop_if_counted
  cases m.halt with
  | some x => rfl
  | none => by_cases h : m.conn_count > 0 <;> simp [h]

theorem wrap_int_one : wrap_int 1 = 1 ∧ wrap_int (0 + 1) = 1 := by
  constructor <;> decide

/-- Control intake of a CONNECT message that carries a new client: the client is emplaced
under the queue-pair number of its connection and no substrate call is made. -/
theorem Manager.control_intake_new_client (env : PollEnv) (m : Manager) (client : Client)
    (rest : List (Operation × msg_t)) :
    (Manager.control_intake env
        { m with _client_queue := (Operation.CONNECT, msg_t.client client) :: rest })._clients
      = Registry.emplace m._clients client.connection.qp_num client ∧
    (Manager.control_intake env
        { m with _client_queue := (Operation.CONNECT, msg_t.client client) :: rest }).trace
      = m.trace := by
  unfold Manager.control_intake
  by_cases hc : m.conn_count > 0
  · simp only [hc, if_true, Manager.pop_if_counted_clients, Manager.pop_if_counted_trace]
    simp [Manager.handle_message]
  · simp only [hc, if_false, Manager.pop_if_counted_clients, Manager.pop_if_counted_trace]
    simp [Manager.handle_message]

theorem Registry.WF_modify (r : Registry) (q : Nat) (f : Client → Client) (h : r.WF) :
    (Registry.modify r q f).WF := by
  unfold Registry.WF at *
  rw [Registry.keys_modify]
  exact h

theorem Registry.find_modify_ne (r : Registry) (q k : Nat) (f : Client → Client)
    (hk : k ≠ q) : Registry.find (Registry.modify r q f) k = Registry.find r k := by
  induction r with
  | nil => rfl
  | cons hd tl ih =>
    obtain ⟨k0, c⟩ := hd
    by_cases h0 : k0 = q
    · subst h0
      have hqk : ¬ k0 = k := fun e => hk e.symm
      simp [Registry.modify, Registry.find, hqk]
    · by_cases h1 : k0 = k
      · subst h1
        simp [Registry.modify, Registry.find, h0]
      · simp [Registry.modify, Registry.find, h0, h1, ih]

theorem Registry.find_modify_self (r : Registry) (q : Nat) (f : Client → Client) (c : Client)
    (h : Registry.find r q = some c) :
    Registry.find (Registry.modify r q f) q = some (f c) := by
  induction r with
  | nil => simp [Registry.find] at h
  | cons hd tl ih =>
    obtain ⟨k0, c0⟩ := hd
    by_cases h0 : k0 = q
    · subst h0
      simp only [Registry.find, if_true] at h
      cases h
      simp [Registry.modify, Registry.find]
    · simp only [Registry.find, h0, if_false] at h
      simp [Registry.modify, Registry.find, h0, ih h]

theorem Registry.mem_erase_subset (r : Registry) (q : Nat) (x : Nat × Client)
    (h : x ∈ Registry.erase r q) : x ∈ r := by
  induction r with
  | nil => simp [Registry.erase] at h
  | cons hd tl ih =>
    obtain ⟨k0, c0⟩ := hd
    by_cases h0 : k0 = q
    · simp only [Registry.erase, h0, if_true] at h
      exact List.mem_cons_of_mem _ h
    · simp only [Registry.erase, h0, if_false, List.mem_cons] at h
      rcases h with e | e
      · exact e ▸ List.mem_cons_self _ _
      · exact List.mem_cons_of_mem _ (ih e)

theorem Registry.Keyed_erase (r : Registry) (q : Nat) (h : r.Keyed) :
    (Registry.erase r q).Keyed :=
  fun k c hm => h k c (Registry.mem_erase_subset r q (k, c) hm)

theorem Registry.Keyed_erase_all (removals : List Nat) (r : Registry) (h : r.Keyed) :
    (Registry.erase_all r removals).Keyed := by
  induction removals generalizing r with
  | nil => simpa [Registry.erase_all] using h
  | cons q qs ih =>
    simpa [Registry.erase_all] using ih (Registry.erase r q) (Registry.Keyed_erase r q h)

theorem Registry.Keyed_emplace (r : Registry) (c : Client) (h : r.Keyed) :
    (Registry.emplace r c.connection.qp_num c).Keyed := by
  unfold Registry.emplace
  cases Registry.find r c.connection.qp_num with
  | some c0 => exact h
  | none =>
    intro k c1 hm
    rcases List.mem_append.mp hm with e | e
    · exact h k c1 e
    · simp only [List.mem_singleton, Prod.mk.injEq] at e
      rw [e.1, e.2]

theorem Registry.Keyed_modify (r : Registry) (q : Nat) (f : Client → Client)
    (hf : ∀ c, (f c).connection = c.connection) (h : r.Keyed) :
    (Registry.modify r q f).Keyed := by
  induction r with
  | nil => intro k c hm; simp [Registry.modify] at hm
  | cons hd tl ih =>
    obtain ⟨k0, c0⟩ := hd
    have h0 : c0.connection.qp_num = k0 := h k0 c0 (List.mem_cons_self _ _)
    have htl : Registry.Keyed tl := fun k c hm => h k c (List.mem_cons_of_mem _ hm)
    intro k c hm
    by_cases hq : k0 = q
    · simp only [Registry.modify, hq, if_true, List.mem_cons, Prod.mk.injEq] at hm
      rcases hm with e | e
      · rw [e.1, e.2, hf, ← hq]; exact h0
      · exact htl k c e
    · simp only [Registry.modify, hq, if_false, List.mem_cons, Prod.mk.injEq] at hm
      rcases hm with e | e
      · rw [e.1, e.2]; exact h0
      · exact ih htl k c e

/-- Handling one control message, whatever the message, leaves no key twice in the
registry. -/
theorem Manager.handle_message_WF (now : Int) (msg : Operation × msg_t) (m : Manager)
    (hwf : m._clients.WF) : (Manager.handle_message now msg m)._clients.WF := by
  obtain ⟨op, payload⟩ := msg
  cases op with
  | CONNECT =>
    cases payload with
    | connection conn =>
      simp only [Manager.handle_message]
      cases hf : Registry.find m._clients conn.private_data with
      | none => exact hwf
      | some c =>
        dsimp only
        cases he : c.executor with
        | none => exact hwf
        | some e => exact Registry.WF_modify _ _ _ hwf
    | client c =>
      simp only [Manager.handle_message]
      exact Registry.WF_emplace _ _ _ hwf
  | DISCONNECT =>
    cases payload with
    | connection conn =>
      simp only [Manager.handle_message]
      cases hf : Registry.find m._clients conn.qp_num with
      | none => exact hwf
      | some c => exact Registry.WF_erase _ _ hwf
    | client c =>
      simp only [Manager.handle_message]
      exact hwf

/-- Handling one control message, whatever the message, keeps every entry under the
queue-pair number of its connection. -/
theorem Manager.handle_message_keyed (now : Int) (msg : Operation × msg_t) (m : Manager)
    (hk : m._clients.Keyed) : (Manager.handle_message now msg m)._clients.Keyed := by
  obtain ⟨op, payload⟩ := msg
  cases op with
  | CONNECT =>
    cases payload with
    | connection conn =>
      simp only [Manager.handle_message]
      cases hf : Registry.find m._clients conn.private_data with
      | none => exact hk
      | some c =>
        dsimp only
        cases he : c.executor with
        | none => exact hk
        | some e => exact Registry.Keyed_modify _ _ _ (fun _ => rfl) hk
    | client c =>
      simp only [Manager.handle_message]
      exact Registry.Keyed_emplace _ _ hk
  | DISCONNECT =>
    cases payload with
    | connection conn =>
      simp only [Manager.handle_message]
      cases hf : Registry.find m._clients conn.qp_num with
      | none => exact hk
      | some c => exact Registry.Keyed_erase _ _ hk
    | client c =>
      simp only [Manager.handle_message]
      exact hk

/-- Control intake maps a registry to one that a single `handle_message` produces from it,
or leaves it as it was. -/
theorem Manager.control_intake_clients (env : PollEnv) (m : Manager) :
    (Manager.control_intake env m)._clients = m._clients ∨
    ∃ msg m0, m0._clients = m._clients ∧
      (Manager.control_intake env m)._clients
        = (Manager.handle_message env.attach_now msg m0)._clients := by
  unfold Manager.control_intake
  by_cases hc : m.conn_count > 0
  · simp only [hc, if_true]
    cases hq : m._client_queue with
    | nil => exact Or.inl rfl
    | cons msg rest =>
      exact Or.inr ⟨msg, m, rfl, by simp only [Manager.pop_if_counted_clients]⟩
  · simp only [hc, if_false]
    cases hq : m._client_queue with
    | nil => exact Or.inl rfl
    | cons msg rest =>
      exact Or.inr ⟨msg, { m with _client_queue := rest }, rfl,
        by simp only [Manager.pop_if_counted_clients]⟩

/-- Control intake leaves no key twice in the registry. -/
theorem Manager.control_intake_WF (env : PollEnv) (m : Manager) (hwf : m._clients.WF) :
    (Manager.control_intake env m)._clients.WF := by
  rcases Manager.control_intake_clients env m with h | ⟨msg, m0, h0, h⟩
  · rw [h]; exact hwf
  · rw [h]; exact Manager.handle_message_WF _ msg m0 (h0 ▸ hwf)

/-- Control intake keeps every entry under the queue-pair number of its connection. -/
theorem Manager.control_intake_keyed (env : PollEnv) (m : Manager) (hk : m._clients.Keyed) :
    (Manager.control_intake env m)._clients.Keyed := by
  rcases Manager.control_intake_clients env m with h | ⟨msg, m0, h0, h⟩
  · rw [h]; exact hk
  · rw [h]; exact Manager.handle_message_keyed _ msg m0 (h0 ▸ hk)

/-- Registry invariant, first half: one iteration of the poller leaves no key twice in the
registry. -/
theorem Manager.poll_rdma_step_WF (settings : Settings) (env : PollEnv) (m : Manager)
    (hwf : m._clients.WF) : (Manager.poll_rdma_step settings env m)._clients.WF := by
  have h1 := Manager.control_intake_WF env m hwf
  have hwf2 : (Manager.scan_clients env settings
      (Manager.control_intake env m)._clients).clients.WF := by
    unfold Registry.WF
    rw [Manager.scan_clients_keys]
    exact h1
  unfold Manager.poll_rdma_step
  cases hh : (Manager.control_intake env m).halt with
  | some x =>
    simp only [hh]
    exact h1
  | none =>
    simp only [hh]
    cases hh2 : (Manager.scan_clients env settings
        (Manager.control_intake env m)._clients).halt with
    | some y =>
      simp only [hh2]
      exact hwf2
    | none =>
      simp only [hh2]
      exact Registry.WF_erase_all _ _ hwf2

/-- Registry invariant, second half: one iteration of the poller keeps every entry under
the queue-pair number of its connection. -/
theorem Manager.poll_rdma_step_keyed (settings : Settings) (env : PollEnv) (m : Manager)
    (hk : m._clients.Keyed) : (Manager.poll_rdma_step settings env m)._clients.Keyed := by
  have h2 := Manager.control_intake_keyed env m hk
  have hk2 := Manager.scan_clients_keyed env settings _ h2
  unfold Manager.poll_rdma_step
  cases hh : (Manager.control_intake env m).halt with
  | some x =>
    simp only [hh]
    exact h2
  | none =>
    simp only [hh]
    cases hh2 : (Manager.scan_clients env settings
        (Manager.control_intake env m)._clients).halt with
    | some y =>
      simp only [hh2]
      exact hk2
    | none =>
      simp only [hh2]
      exact Registry.Keyed_erase_all _ _ hk2

/-- The listener never touches the registry. -/
theorem Manager.listen_step_clients (env : ListenEnv) (m : Manager) :
    (Manager.listen_step env m)._clients = m._clients := by
  unfold Manager.listen_step
  cases env.event with
  | none => rfl
  | some ev =>
    obtain ⟨conn, st⟩ := ev
    cases conn with
    | none => rfl
    | some conn =>
      cases st <;> by_cases hs : PrivateData.secret conn.private_data > 0 <;>
        simp [Manager.enqueue, hs]

/-- In every reachable state the registry has no key twice and stores every client under
the queue-pair number of its own connection. -/
theorem Manager.Reachable.registry_inv (settings : Settings) (m : Manager)
    (h : Manager.Reachable settings m) : m._clients.WF ∧ m._clients.Keyed := by
  induction h with
  | init =>
    refine ⟨?_, ?_⟩
    · unfold Registry.WF
      exact List.nodup_nil
    · intro k c hm
      cases hm
  | listen env m _ ih =>
    rw [Manager.listen_step_clients]
    exact ih
  | poll env m _ _ ih =>
    exact ⟨Manager.poll_rdma_step_WF settings env m ih.1,
      Manager.poll_rdma_step_keyed settings env m ih.2⟩

/-! ## Claims about the listener and the control intake -/

/-- C1: when the poller consumes a CONNECT message carrying a bare connection, it calls
accept on the connection exactly when the private-data secret is a key of the registry,
and calls reject (leaving the registry as it was) exactly when it is not; with an empty
registry the secret 0xDEADBEEF is rejected. -/
theorem poll_rdma_bare_connect_accept_iff_registered (env : PollEnv) (m : Manager)
    (conn : Connection) (rest : List (Operation × msg_t)) :
    ((Manager.control_intake env
        { m with _client_queue := (Operation.CONNECT, msg_t.connection conn) :: rest }).trace
        = m.trace ++ [Op.accept conn.id] ↔ conn.private_data ∈ m._clients.keys) ∧
    ((Manager.control_intake env
        { m with _client_queue := (Operation.CONNECT, msg_t.connection conn) :: rest }).trace
        = m.trace ++ [Op.reject conn.id] ↔ conn.private_data ∉ m._clients.keys) ∧
    (conn.private_data ∉ m._clients.keys →
      (Manager.control_intake env
        { m with _client_queue := (Operation.CONNECT, msg_t.connection conn) :: rest })._clients
        = m._clients) ∧
    (Manager.control_intake sample_env
        { Manager.init with
          _client_queue := [(Operation.CONNECT, msg_t.connection ⟨1, 9, 0xDEADBEEF⟩)] }).trace
      = [Op.reject 1] := by
  have key : ∀ (m0 : Manager),
      (Manager.pop_if_counted (Manager.handle_message env.attach_now
        (Operation.CONNECT, msg_t.connection conn) m0)).trace
        = m0.trace ++ [if conn.private_data ∈ m0._clients.keys then Op.accept conn.id
                       else Op.reject conn.id] ∧
      (conn.private_data ∉ m0._clients.keys →
        (Manager.pop_if_counted (Manager.handle_message env.attach_now
          (Operation.CONNECT, msg_t.connection conn) m0))._clients = m0._clients) := by
    intro m0
    rw [Manager.pop_if_counted_trace, Manager.pop_if_counted_clients]
    cases hf : Registry.find m0._clients conn.private_data with
    | none =>
      have hk := (Registry.find_eq_none_iff _ _).mp hf
      simp [Manager.handle_message, hf, hk]
    | some c =>
      have hk := (Registry.find_isSome_iff _ _).mp ⟨c, hf⟩
      cases he : c.executor <;> simp [Manager.handle_message, hf, hk, he]
  have main :
      (Manager.control_intake env
        { m with _client_queue := (Operation.CONNECT, msg_t.connection conn) :: rest }).trace
        = m.trace ++ [if conn.private_data ∈ m._clients.keys then Op.accept conn.id
                      else Op.reject conn.id] ∧
      (conn.private_data ∉ m._clients.keys →
        (Manager.control_intake env
          { m with _client_queue := (Operation.CONNECT, msg_t.connection conn) :: rest })._clients
          = m._clients) := by
    unfold Manager.control_intake
    by_cases hc : m.conn_count > 0
    · simp only [hc, if_true]
      exact key _
    · simp only [hc, if_false]
      exact key _
  refine ⟨?_, ?_, main.2, by decide⟩
  · rw [main.1]
    by_cases hk : conn.private_data ∈ m._clients.keys <;> simp [hk]
  · rw [main.1]
    by_cases hk : conn.private_data ∈ m._clients.keys <;> simp [hk]

/-- C2: on a REQUESTED event with private-data secret 0 the listener calls accept on the
connection first and only then constructs the client, whose constructor posts the receive
work requests: in the trace accept comes before the priming, whatever the connection. -/
theorem listen_new_client_accepts_before_priming (m : Manager) (id qp : Nat)
    (requests : Nat → AllocationRequest) (accounting : AccountingBuffer) :
    (Manager.listen_step
      { event := some (some ⟨id, qp, 0⟩, ConnectionStatus.REQUESTED),
        requests := requests, accounting := accounting } m).trace
      = m.trace ++ [Op.accept id, Op.post_recv id] := by
  simp [Manager.listen_step, PrivateData.secret, Manager.enqueue]

/-! ## Claims about the per-client drain -/

/-- The branch taken for `cores > 0` never changes the accumulated allocation time: when
every polled completion indexes a slot with `cores > 0`, the client leaves the drain with
the allocation time it entered with, whether or not it held an executor. -/
theorem Manager.drain_spawn_keeps_allocation_time (env : PollEnv) (settings : Settings)
    (i : Nat) (wcs : List WorkCompletion) :
    ∀ (j : Nat) (client : Client),
      (∀ wc ∈ wcs, 0 < (client.allocation_requests wc.wr_id).cores) →
      (Manager.drain env settings i j wcs client).client.allocation_time
        = client.allocation_time := by
  induction wcs with
  | nil => intro j client _; rfl
  | cons wc rest ih =>
    intro j client h
    have hc : (client.allocation_requests wc.wr_id).cores > 0 := h wc (List.mem_cons_self _ _)
    unfold Manager.drain
    simp only [hc, if_true]
    cases hs : ProcessExecutor.spawn (client.allocation_requests wc.wr_id) settings.exec
        (Manager.manager_connection settings client) (env.spawn_begin i j) (env.fork i j)
        env.getpid with
    | child out_file argv => rfl
    | parent ff e =>
      simpa using ih (j + 1) { client with executor := some e }
        (fun w hw => h w (List.mem_cons_of_mem _ hw))

/-- C3: a client that holds an executor allocated at time 100 receives a request with
cores 1; the poller spawns pid 4243 and replaces the handle, and the allocation time is
still 0 afterwards: nothing was accrued for the prior executor. Two back-to-back requests
give two spawns and again an allocation time of 0. The tear-down branch and the reaping
step, in the same situation, do accrue 250 - 100 = 150. -/
theorem second_allocation_replaces_without_accrual :
    (Manager.scan_client respawn_env sample_settings 7
        (sample_client 1 7 1 (some sample_executor))).client.allocation_time = 0 ∧
    (Manager.scan_client respawn_env sample_settings 7
        (sample_client 1 7 1 (some sample_executor))).client.executor
      = some (ProcessExecutor.make 200 4243) ∧
    (Manager.scan_client double_env sample_settings 7 (sample_client 1 7 1 none)).ops
      = [Op.spawn 7 (Manager.manager_connection sample_settings (sample_client 1 7 1 none)) 4242,
         Op.spawn 7 (Manager.manager_connection sample_settings (sample_client 1 7 1 none)) 4243,
         Op.refill 7] ∧
    (Manager.scan_client double_env sample_settings 7
        (sample_client 1 7 1 none)).client.allocation_time = 0 ∧
    (Manager.scan_client (recv_env 7 [⟨0, 0⟩]) sample_settings 7
        (sample_client 1 7 0 (some sample_executor))).client.allocation_time = 150 ∧
    (Manager.scan_client { sample_env with waitpid := fun _ => ⟨4242, 9⟩ } sample_settings 7
        (sample_client 1 7 1 (some sample_executor))).client.allocation_time = 150 := by
  refine ⟨by decide, by decide, by decide, by decide, by decide, by decide⟩

/-- The drain never reads the status of a completion. -/
theorem Manager.drain_ignores_status (env : PollEnv) (settings : Settings) (i j : Nat)
    (id status : Nat) (rest : List WorkCompletion) (client : Client) :
    Manager.drain env settings i j (⟨id, status⟩ :: rest) client
      = Manager.drain env settings i j (⟨id, 0⟩ :: rest) client := by
  simp [Manager.drain]

/-- C4: a completion with status 1 is acted on like a successful one. When its slot holds
cores 0 the client is disabled and erased from the registry; when its slot holds cores 1 an
executor is spawned. -/
theorem failed_completion_is_acted_on :
    (Manager.poll_rdma_step sample_settings (recv_env 7 [⟨0, 1⟩])
        (sample_manager [] [(7, sample_client 1 7 0 none)]))._clients.keys = [] ∧
    (Manager.poll_rdma_step sample_settings (recv_env 7 [⟨0, 1⟩])
        (sample_manager [] [(7, sample_client 1 7 0 none)])).trace = [Op.disable 7] ∧
    (Manager.poll_rdma_step sample_settings (recv_env 7 [⟨0, 1⟩])
        (sample_manager [] [(7, sample_client 1 7 1 none)])).trace
      = [Op.spawn 7 (Manager.manager_connection sample_settings (sample_client 1 7 1 none)) 4242,
         Op.refill 7] := by
  refine ⟨by decide, by decide, by decide⟩

/-- C5: when `fork` returns a negative pid, `spawn` logs the failure and still returns a
new executor handle that carries the negative pid; the poller stores it, so the client
holds an executor with pid -1 and a spawn is recorded. -/
theorem spawn_returns_handle_when_fork_fails (request : AllocationRequest)
    (exec : ExecutorSettings) (conn : ManagerConnection) (begin_time getpid : Int) (n : Nat) :
    ProcessExecutor.spawn request exec conn begin_time (Int.negSucc n) getpid
      = SpawnOutcome.parent true (ProcessExecutor.make begin_time (Int.negSucc n)) ∧
    (Manager.scan_client failed_fork_env sample_settings 7
        (sample_client 1 7 1 none)).client.executor = some (ProcessExecutor.make 100 (-1)) ∧
    (Manager.scan_client failed_fork_env sample_settings 7 (sample_client 1 7 1 none)).ops
      = [Op.spawn 7 (Manager.manager_connection sample_settings (sample_client 1 7 1 none)) (-1),
         Op.refill 7] := by
  refine ⟨?_, by decide, by decide⟩
  have h0 : Int.negSucc n ≠ 0 := by intro h; cases h
  have h1 : Int.negSucc n < 0 := Int.negSucc_lt_zero n
  simp [ProcessExecutor.spawn, h0, h1]

/-! ## Claims about the registry over one iteration -/

/-- C6 (as stated, refuted): the poller consumes a CONNECT message with a new client on
queue pair 7 whose first polled completion indexes a slot with cores 0; the iteration runs
to its end and the registry does not contain key 7. -/
theorem new_client_torn_down_in_same_iteration :
    (Manager.poll_rdma_step sample_settings (recv_env 7 [⟨0, 0⟩])
        (sample_manager [(Operation.CONNECT, msg_t.client (sample_client 1 7 0 none))]
          []))._clients.keys.count 7 = 0 ∧
    (Manager.poll_rdma_step sample_settings (recv_env 7 [⟨0, 0⟩])
        (sample_manager [(Operation.CONNECT, msg_t.client (sample_client 1 7 0 none))]
          [])).halt = none := by
  refine ⟨by decide, by decide⟩

/-- C6 (amended): for every CONNECT message with a new client consumed by the poller, the
registry contains the queue-pair number of the client exactly once after the control
intake. At the end of the iteration it still contains it exactly once when none of the
completions polled for that key in this iteration indexes a slot with `cores <= 0`; when
one of them does and the iteration runs to its end, the batch deletion has erased the
client and the registry does not contain the key. -/
theorem new_client_registered_exactly_once (settings : Settings) (env : PollEnv)
    (m : Manager) (client : Client) (rest : List (Operation × msg_t))
    (hwf : m._clients.WF) :
    (Manager.control_intake env
        { m with _client_queue := (Operation.CONNECT, msg_t.client client) :: rest
        })._clients.keys.count client.connection.qp_num = 1 ∧
    ((∀ c, Registry.find (Manager.control_intake env
          { m with _client_queue := (Operation.CONNECT, msg_t.client client) :: rest
          })._clients client.connection.qp_num = some c →
        ∀ wc ∈ env.recv client.connection.qp_num,
          0 < (c.allocation_requests wc.wr_id).cores) →
      (Manager.poll_rdma_step settings env
        { m with _client_queue := (Operation.CONNECT, msg_t.client client) :: rest
        })._clients.keys.count client.connection.qp_num = 1) ∧
    ((∃ c wc, Registry.find (Manager.control_intake env
          { m with _client_queue := (Operation.CONNECT, msg_t.client client) :: rest
          })._clients client.connection.qp_num = some c ∧
        wc ∈ env.recv client.connection.qp_num ∧
        (c.allocation_requests wc.wr_id).cores ≤ 0) →
      (Manager.poll_rdma_step settings env
        { m with _client_queue := (Operation.CONNECT, msg_t.client client) :: rest
        }).halt = none →
      (Manager.poll_rdma_step settings env
        { m with _client_queue := (Operation.CONNECT, msg_t.client client) :: rest
        })._clients.keys.count client.connection.qp_num = 0) := by
  have hi := Manager.control_intake_WF env
    { m with _client_queue := (Operation.CONNECT, msg_t.client client) :: rest } hwf
  have hs := Manager.poll_rdma_step_WF settings env
    { m with _client_queue := (Operation.CONNECT, msg_t.client client) :: rest } hwf
  have hc := (Manager.control_intake_new_client env m client rest).1
  have hmem : client.connection.qp_num ∈ (Manager.control_intake env
      { m with _client_queue := (Operation.CONNECT, msg_t.client client) :: rest
      })._clients.keys := by
    rw [hc, Registry.keys_emplace]
    by_cases h : client.connection.qp_num ∈ m._clients.keys <;> simp [h]
  refine ⟨List.count_eq_one_of_mem hi hmem, fun hreq => ?_, fun hdown hh => ?_⟩
  · obtain ⟨c, hfc⟩ := (Registry.find_isSome_iff _ _).mpr hmem
    exact List.count_eq_one_of_mem hs
      (Manager.poll_rdma_step_keeps settings env _ hi _ c (Registry.find_mem _ _ c hfc)
        (hreq c hfc))
  · obtain ⟨c, wc, hfc, hw, hcw⟩ := hdown
    exact List.count_eq_zero_of_not_mem
      (Manager.poll_rdma_step_removes settings env _ hi hh _ c (Registry.find_mem _ _ c hfc)
        ⟨wc, hw, hcw⟩)

/-- Witness for C6 (amended): a new client on queue pair 7 arrives at an empty registry and
has one polled completion in the same iteration. When its slot holds cores 1 an executor is
spawned and key 7 is registered once; when its slot holds cores 0 the iteration runs to its
end and key 7 is not registered. -/
theorem new_client_registered_exactly_once_witness :
    Registry.WF Manager.init._clients ∧
    all_recv_env.recv (sample_client 1 7 1 none).connection.qp_num = [⟨0, 0⟩] ∧
    (Manager.control_intake all_recv_env
        { Manager.init with
          _client_queue := (Operation.CONNECT, msg_t.client (sample_client 1 7 1 none)) :: []
        })._clients.keys.count (sample_client 1 7 1 none).connection.qp_num = 1 ∧
    (Manager.poll_rdma_step sample_settings all_recv_env
        { Manager.init with
          _client_queue := (Operation.CONNECT, msg_t.client (sample_client 1 7 1 none)) :: []
        })._clients.keys.count (sample_client 1 7 1 none).connection.qp_num = 1 ∧
    (Manager.poll_rdma_step sample_settings all_recv_env
        { Manager.init with
          _client_queue := (Operation.CONNECT, msg_t.client (sample_client 1 7 0 none)) :: []
        })._clients.keys.count (sample_client 1 7 0 none).connection.qp_num = 0 := by
  have hwf : Registry.WF Manager.init._clients := by unfold Registry.WF; decide
  have h1 := new_client_registered_exactly_once sample_settings all_recv_env Manager.init
    (sample_client 1 7 1 none) [] hwf
  have h0 := new_client_registered_exactly_once sample_settings all_recv_env Manager.init
    (sample_client 1 7 0 none) [] hwf
  refine ⟨hwf, rfl, h1.1, h1.2.1 ?_, h0.2.2 ?_ (by decide)⟩
  · intro c hc wc _
    have hc2 : Registry.find [(7, sample_client 1 7 1 none)] 7 = some c := by
      rw [(Manager.control_intake_new_client all_recv_env Manager.init
        (sample_client 1 7 1 none) []).1] at hc
      exact hc
    simp only [Registry.find, if_true, Option.some.injEq] at hc2
    rw [← hc2]
    show (0 : Int) < 1
    decide
  · refine ⟨sample_client 1 7 0 none, ⟨0, 0⟩, ?_, List.mem_cons_self _ _, ?_⟩
    · rw [(Manager.control_intake_new_client all_recv_env Manager.init
        (sample_client 1 7 0 none) []).1]
      rfl
    · show (0 : Int) ≤ 0
      decide

/-- Control intake of a DISCONNECT message that carries a connection: the entry stored
under the queue-pair number of the connection is erased. -/
theorem Manager.control_intake_disconnect (env : PollEnv) (m : Manager) (conn : Connection)
    (rest : List (Operation × msg_t)) :
    (Manager.control_intake env
        { m with _client_queue := (Operation.DISCONNECT, msg_t.connection conn) :: rest
        })._clients = Registry.erase m._clients conn.qp_num := by
  have key : ∀ (m0 : Manager), m0._clients = m._clients →
      (Manager.pop_if_counted (Manager.handle_message env.attach_now
        (Operation.DISCONNECT, msg_t.connection conn) m0))._clients
        = Registry.erase m._clients conn.qp_num := by
    intro m0 h0
    rw [Manager.pop_if_counted_clients]
    simp only [Manager.handle_message, h0]
    cases hf : Registry.find m._clients conn.qp_num with
    | none =>
      simp only [h0]
      exact (Registry.erase_absent _ _ ((Registry.find_eq_none_iff _ _).mp hf)).symm
    | some c => rfl
  unfold Manager.control_intake
  by_cases hc : m.conn_count > 0
  · simp only [hc, if_true]
    exact key _ rfl
  · simp only [hc, if_false]
    exact key _ rfl

/-- C7: for every DISCONNECT message consumed by the poller, the registry does not contain
the queue-pair number of the connection at the end of the iteration; the intake step leaves
the entry of every other key as it was; and when the queue-pair number was not registered
the intake step leaves the registry exactly as it was. -/
theorem disconnect_erases_exactly_that_client (settings : Settings) (env : PollEnv)
    (m : Manager) (conn : Connection) (rest : List (Operation × msg_t))
    (hwf : m._clients.WF) :
    conn.qp_num ∉ (Manager.poll_rdma_step settings env
        { m with _client_queue := (Operation.DISCONNECT, msg_t.connection conn) :: rest
        })._clients.keys ∧
    (∀ k, k ≠ conn.qp_num →
      Registry.find (Manager.control_intake env
        { m with _client_queue := (Operation.DISCONNECT, msg_t.connection conn) :: rest
        })._clients k = Registry.find m._clients k) ∧
    (conn.qp_num ∉ m._clients.keys →
      (Manager.control_intake env
        { m with _client_queue := (Operation.DISCONNECT, msg_t.connection conn) :: rest
        })._clients = m._clients) := by
  have hc := Manager.control_intake_disconnect env m conn rest
  refine ⟨fun hmem => ?_, fun k hk => ?_, fun habs => ?_⟩
  · have h1 := Manager.poll_rdma_step_keys_subset settings env _ _ hmem
    rw [hc, Registry.mem_keys_erase _ hwf] at h1
    exact h1.1 rfl
  · rw [hc]
    exact Registry.find_erase_ne _ _ _ hk
  · rw [hc]
    exact Registry.erase_absent _ _ habs

/-- Witness for C7: clients 7 and 8 are registered and the connection of client 7
disconnects; key 7 is gone at the end of the iteration and key 8 is still found. -/
theorem disconnect_erases_exactly_that_client_witness :
    Registry.WF [(7, sample_client 1 7 1 none), (8, sample_client 2 8 1 none)] ∧
    (7 : Nat) ∉ (Manager.poll_rdma_step sample_settings sample_env
        { sample_manager [] [(7, sample_client 1 7 1 none), (8, sample_client 2 8 1 none)] with
          _client_queue := (Operation.DISCONNECT, msg_t.connection ⟨1, 7, 0⟩) :: []
        })._clients.keys ∧
    (Registry.find (Manager.control_intake sample_env
        { sample_manager [] [(7, sample_client 1 7 1 none), (8, sample_client 2 8 1 none)] with
          _client_queue := (Operation.DISCONNECT, msg_t.connection ⟨1, 7, 0⟩) :: []
        })._clients 8).isSome = true :=
  ⟨by unfold Registry.WF; decide,
   (disconnect_erases_exactly_that_client sample_settings sample_env
      (sample_manager [] [(7, sample_client 1 7 1 none), (8, sample_client 2 8 1 none)])
      ⟨1, 7, 0⟩ [] (by unfold Registry.WF; decide)).1,
   by
    rw [(disconnect_erases_exactly_that_client sample_settings sample_env
      (sample_manager [] [(7, sample_client 1 7 1 none), (8, sample_client 2 8 1 none)])
      ⟨1, 7, 0⟩ [] (by unfold Registry.WF; decide)).2.1 8 (by decide)]
    rfl⟩

/-- C8: in an iteration that runs to its end, every client for which a successfully polled
completion indexes a slot with `cores <= 0` is absent from the registry at the end, and
every client none of whose polled completions indexes such a slot is still registered: no
other client is erased by the batch deletion. -/
theorem teardown_request_removes_exactly_its_client (settings : Settings) (env : PollEnv)
    (m : Manager) (hwf : m._clients.WF)
    (hh : (Manager.poll_rdma_step settings env m).halt = none) :
    (∀ k c wc, (k, c) ∈ (Manager.control_intake env m)._clients → wc ∈ env.recv k →
      wc.status = 0 → (c.allocation_requests wc.wr_id).cores ≤ 0 →
      k ∉ (Manager.poll_rdma_step settings env m)._clients.keys) ∧
    (∀ k c, (k, c) ∈ (Manager.control_intake env m)._clients →
      (∀ wc ∈ env.recv k, 0 < (c.allocation_requests wc.wr_id).cores) →
      k ∈ (Manager.poll_rdma_step settings env m)._clients.keys) := by
  have hi := Manager.control_intake_WF env m hwf
  refine ⟨fun k c wc hm hw _ hc => ?_, fun k c hm hc => ?_⟩
  · exact Manager.poll_rdma_step_removes settings env m hi hh k c hm ⟨wc, hw, hc⟩
  · exact Manager.poll_rdma_step_keeps settings env m hi k c hm hc

/-- Witness for C8: clients 7 and 8 each have one successful completion; the slot of
client 7 holds cores 0 and the slot of client 8 holds cores 1. Client 7 is erased and
client 8 stays. -/
theorem teardown_request_removes_exactly_its_client_witness :
    Registry.WF [(7, sample_client 1 7 0 none), (8, sample_client 2 8 1 none)] ∧
    (Manager.poll_rdma_step sample_settings all_recv_env
      (sample_manager [] [(7, sample_client 1 7 0 none), (8, sample_client 2 8 1 none)])).halt
      = none ∧
    (7 : Nat) ∉ (Manager.poll_rdma_step sample_settings all_recv_env
      (sample_manager [] [(7, sample_client 1 7 0 none), (8, sample_client 2 8 1 none)])
      )._clients.keys ∧
    (8 : Nat) ∈ (Manager.poll_rdma_step sample_settings all_recv_env
      (sample_manager [] [(7, sample_client 1 7 0 none), (8, sample_client 2 8 1 none)])
      )._clients.keys :=
  ⟨by unfold Registry.WF; decide, by decide,
   (teardown_request_removes_exactly_its_client sample_settings all_recv_env
      (sample_manager [] [(7, sample_client 1 7 0 none), (8, sample_client 2 8 1 none)])
      (by unfold Registry.WF; decide) (by decide)).1 7 (sample_client 1 7 0 none) ⟨0, 0⟩
      (List.mem_cons_self _ _) (List.mem_cons_self _ _) rfl (by decide),
   (teardown_request_removes_exactly_its_client sample_settings all_recv_env
      (sample_manager [] [(7, sample_client 1 7 0 none), (8, sample_client 2 8 1 none)])
      (by unfold Registry.WF; decide) (by decide)).2 8 (sample_client 2 8 1 none)
      (List.mem_cons_of_mem _ (List.mem_cons_self _ _))
      (fun _ _ => by show (0 : Int) < 1; decide)⟩

/-! ## Claims about the executor secret and about who accepts -/

/-- Every spawn the drain records for a client passes the queue-pair number of the
connection of that client as the secret. -/
theorem Manager.drain_spawn_secret (env : PollEnv) (settings : Settings) (i : Nat)
    (wcs : List WorkCompletion) :
    ∀ (j : Nat) (client : Client) (i0 : Nat) (mc : ManagerConnection) (pid : Int),
      Op.spawn i0 mc pid ∈ (Manager.drain env settings i j wcs client).ops →
      mc.secret = client.connection.qp_num := by
  induction wcs with
  | nil => intro j client i0 mc pid ho; simp [Manager.drain] at ho
  | cons wc rest ih =>
    intro j client i0 mc pid ho
    unfold Manager.drain at ho
    by_cases hc : (client.allocation_requests wc.wr_id).cores > 0
    · simp only [hc, if_true] at ho
      cases hs : ProcessExecutor.spawn (client.allocation_requests wc.wr_id) settings.exec
          (Manager.manager_connection settings client) (env.spawn_begin i j) (env.fork i j)
          env.getpid with
      | child out_file argv => rw [hs] at ho; simp at ho
      | parent ff e =>
        rw [hs] at ho
        simp only [List.mem_cons] at ho
        rcases ho with e1 | e1
        · cases e1
          rfl
        · exact ih (j + 1) { client with executor := some e } i0 mc pid e1
    · simp only [hc, if_false, List.mem_singleton] at ho
      cases ho

theorem Manager.scan_client_spawn_secret (env : PollEnv) (settings : Settings) (i : Nat)
    (client : Client) (i0 : Nat) (mc : ManagerConnection) (pid : Int)
    (ho : Op.spawn i0 mc pid ∈ (Manager.scan_client env settings i client).ops) :
    mc.secret = client.connection.qp_num := by
  unfold Manager.scan_client at ho
  cases h : (Manager.drain env settings i 0 (env.recv i) client).halt with
  | some x =>
    simp only [h] at ho
    exact Manager.drain_spawn_secret env settings i (env.recv i) 0 client i0 mc pid ho
  | none =>
    simp only [h, List.mem_append] at ho
    rcases ho with e1 | e1
    · exact Manager.drain_spawn_secret env settings i (env.recv i) 0 client i0 mc pid e1
    · exfalso
      unfold Manager.reap at e1
      by_cases ha : (Manager.drain env settings i 0 (env.recv i) client).client.active = true
      · simp only [ha, if_true] at e1
        cases he : (Manager.drain env settings i 0 (env.recv i) client).client.executor with
        | none =>
          rw [he] at e1
          simp at e1
        | some e =>
          rw [he] at e1
          dsimp only at e1
          by_cases hs : (ProcessExecutor.check (env.waitpid i)).1 ≠ Status.RUNNING
          · rw [if_pos hs] at e1
            simp at e1
          · rw [if_neg hs] at e1
            simp at e1
      · simp [ha] at e1

/-- Control intake of a CONNECT message that carries a bare connection whose secret is
registered to a client holding an executor: the connection is attached to the executor of
that client, in place. -/
theorem Manager.control_intake_attach (env : PollEnv) (m : Manager) (conn : Connection)
    (rest : List (Operation × msg_t)) (c : Client) (e : ProcessExecutor)
    (hf : Registry.find m._clients conn.private_data = some c) (he : c.executor = some e) :
    (Manager.control_intake env
        { m with _client_queue := (Operation.CONNECT, msg_t.connection conn) :: rest
        })._clients
      = Registry.modify m._clients conn.private_data
          (fun c => { c with executor := some (e.add_executor conn env.attach_now) }) := by
  unfold Manager.control_intake
  by_cases hc : m.conn_count > 0
  · simp only [hc, if_true, Manager.pop_if_counted_clients]
    simp [Manager.handle_message, hf, he]
  · simp only [hc, if_false, Manager.pop_if_counted_clients]
    simp [Manager.handle_message, hf, he]

/-- Control intake of a CONNECT message that carries a bare connection changes the entry of
no key other than the secret of the connection. -/
theorem Manager.control_intake_bare_other (env : PollEnv) (m : Manager) (conn : Connection)
    (rest : List (Operation × msg_t)) (k : Nat) (hk : k ≠ conn.private_data) :
    Registry.find (Manager.control_intake env
        { m with _client_queue := (Operation.CONNECT, msg_t.connection conn) :: rest
        })._clients k = Registry.find m._clients k := by
  have key : ∀ (m0 : Manager), m0._clients = m._clients →
      Registry.find (Manager.pop_if_counted (Manager.handle_message env.attach_now
        (Operation.CONNECT, msg_t.connection conn) m0))._clients k
        = Registry.find m._clients k := by
    intro m0 h0
    rw [Manager.pop_if_counted_clients]
    simp only [Manager.handle_message, h0]
    cases hf : Registry.find m._clients conn.private_data with
    | none => simp only [h0]
    | some c =>
      dsimp only
      cases he : c.executor with
      | none => simp only [h0]
      | some e =>
        dsimp only
        exact Registry.find_modify_ne _ _ _ _ hk
  unfold Manager.control_intake
  by_cases hc : m.conn_count > 0
  · simp only [hc, if_true]
    exact key _ rfl
  · simp only [hc, if_false]
    exact key _ rfl

/-- C9: for every registered client with a non-zero queue-pair number, the secret passed
to every executor spawned for it is its queue-pair number, which is its registry key; a
REQUESTED event whose private data is that secret is enqueued by the listener as a CONNECT
message carrying the bare connection, and the poller resolves it to that client: the
lookup returns the client, the connection is attached to the executor of that client, and
the entry of every other key is left as it was. -/
theorem executor_secret_resolves_to_spawning_client (settings : Settings) (env : PollEnv)
    (m lm : Manager) (k : Nat) (c : Client) (conn : Connection)
    (rest : List (Operation × msg_t)) (requests : Nat → AllocationRequest)
    (accounting : AccountingBuffer)
    (hwf : m._clients.WF) (hkeyed : m._clients.Keyed) (hm : (k, c) ∈ m._clients)
    (hk : k ≠ 0)
    (hs : conn.private_data = (Manager.manager_connection settings c).secret) :
    (∀ i mc pid, Op.spawn i mc pid ∈ (Manager.scan_client env settings k c).ops →
      mc.secret = k) ∧
    (Manager.manager_connection settings c).secret = k ∧
    (Manager.listen_step
        { event := some (some conn, ConnectionStatus.REQUESTED),
          requests := requests, accounting := accounting } lm)._client_queue
      = lm._client_queue ++ [(Operation.CONNECT, msg_t.connection conn)] ∧
    Registry.find m._clients conn.private_data = some c ∧
    (∀ e, c.executor = some e →
      Registry.find (Manager.control_intake env
        { m with _client_queue := (Operation.CONNECT, msg_t.connection conn) :: rest
        })._clients k
        = some { c with executor := some (e.add_executor conn env.attach_now) }) ∧
    (∀ q, q ≠ k →
      Registry.find (Manager.control_intake env
        { m with _client_queue := (Operation.CONNECT, msg_t.connection conn) :: rest
        })._clients q = Registry.find m._clients q) := by
  have hq : c.connection.qp_num = k := hkeyed k c hm
  have hsec : (Manager.manager_connection settings c).secret = k := by
    simp [Manager.manager_connection, PrivateData.data, hq]
  have hpd : conn.private_data = k := hs.trans hsec
  have hfind : Registry.find m._clients conn.private_data = some c := by
    rw [hpd]
    exact Registry.find_of_mem _ hwf k c hm
  refine ⟨fun i mc pid ho => ?_, hsec, ?_, hfind, fun e he => ?_, fun q hqk => ?_⟩
  · rw [Manager.scan_client_spawn_secret env settings k c i mc pid ho, hq]
  · have hpos : PrivateData.secret conn.private_data > 0 := by
      rw [hpd]
      exact Nat.pos_of_ne_zero hk
    simp [Manager.listen_step, Manager.enqueue, hpos]
  · rw [Manager.control_intake_attach env m conn rest c e hfind he, hpd]
    exact Registry.find_modify_self _ _ _ c (hpd ▸ hfind)
  · exact Manager.control_intake_bare_other env m conn rest q (by rw [hpd]; exact hqk)

/-- Witness for C9: clients 7 and 8 are registered, client 7 holds an executor, and a
connection with private data 7 is requested. -/
theorem executor_secret_resolves_to_spawning_client_witness :
    Registry.WF [(7, sample_client 1 7 1 (some sample_executor)),
                 (8, sample_client 2 8 1 none)] ∧
    Registry.Keyed [(7, sample_client 1 7 1 (some sample_executor)),
                    (8, sample_client 2 8 1 none)] ∧
    (7 : Nat) ≠ 0 ∧
    (Manager.manager_connection sample_settings
      (sample_client 1 7 1 (some sample_executor))).secret = 7 ∧
    (Manager.listen_step (sample_listen_env ⟨5, 99, 7⟩ ConnectionStatus.REQUESTED 1)
        Manager.init)._client_queue
      = Manager.init._client_queue ++ [(Operation.CONNECT, msg_t.connection ⟨5, 99, 7⟩)] ∧
    Registry.find [(7, sample_client 1 7 1 (some sample_executor)),
                   (8, sample_client 2 8 1 none)] 7
      = some (sample_client 1 7 1 (some sample_executor)) := by
  have hwf : Registry.WF [(7, sample_client 1 7 1 (some sample_executor)),
      (8, sample_client 2 8 1 none)] := by unfold Registry.WF; decide
  have hkeyed : Registry.Keyed [(7, sample_client 1 7 1 (some sample_executor)),
      (8, sample_client 2 8 1 none)] := by
    intro k c hmem
    simp only [List.mem_cons, Prod.mk.injEq, List.mem_singleton, List.not_mem_nil,
      or_false] at hmem
    rcases hmem with ⟨h1, h2⟩ | ⟨h1, h2⟩ <;> subst h1 <;> subst h2 <;> rfl
  have h := executor_secret_resolves_to_spawning_client sample_settings sample_env
    (sample_manager [] [(7, sample_client 1 7 1 (some sample_executor)),
                        (8, sample_client 2 8 1 none)])
    Manager.init 7 (sample_client 1 7 1 (some sample_executor)) ⟨5, 99, 7⟩ []
    (fun _ => sample_request 1) sample_accounting hwf hkeyed
    (List.mem_cons_self _ _) (by decide) rfl
  exact ⟨hwf, hkeyed, by decide, h.2.1, h.2.2.1, h.2.2.2.1⟩

/-- C10 (as stated, refuted): on a REQUESTED event with private-data secret 0 for
connection 1 the listener itself calls accept on that connection, and the poller iteration
that consumes the resulting CONNECT message with the new client calls no accept: the whole
trace is the accept and the priming of the listener followed by the refill of the poller. -/
theorem listener_accepts_new_client :
    Op.accept 1 ∈ (Manager.listen_step
        (sample_listen_env ⟨1, 7, 0⟩ ConnectionStatus.REQUESTED 1) Manager.init).trace ∧
    (Manager.poll_rdma_step sample_settings sample_env
        (Manager.listen_step (sample_listen_env ⟨1, 7, 0⟩ ConnectionStatus.REQUESTED 1)
          Manager.init)).trace
      = [Op.accept 1, Op.post_recv 1, Op.refill 7] := by
  refine ⟨by decide, by decide⟩

/-- C10 (amended): for a REQUESTED event with private-data secret 0 the listener calls
accept on the connection exactly once and enqueues one CONNECT message carrying the new
client; the poller iteration that consumes a CONNECT message carrying a new client makes
no accept and no reject call. Each new client connection is thus accepted exactly once,
by the listener. -/
theorem new_client_accepted_once_by_listener (settings : Settings) (env : PollEnv)
    (lm pm : Manager) (id qp : Nat) (requests : Nat → AllocationRequest)
    (accounting : AccountingBuffer) (client : Client) (rest : List (Operation × msg_t)) :
    (∃ ops c,
      (Manager.listen_step
        { event := some (some ⟨id, qp, 0⟩, ConnectionStatus.REQUESTED),
          requests := requests, accounting := accounting } lm).trace = lm.trace ++ ops ∧
      ops.count (Op.accept id) = 1 ∧
      (Manager.listen_step
        { event := some (some ⟨id, qp, 0⟩, ConnectionStatus.REQUESTED),
          requests := requests, accounting := accounting } lm)._client_queue
        = lm._client_queue ++ [(Operation.CONNECT, msg_t.client c)] ∧
      c.connection = ⟨id, qp, 0⟩) ∧
    (∃ ops,
      (Manager.poll_rdma_step settings env
        { pm with _client_queue := (Operation.CONNECT, msg_t.client client) :: rest }).trace
        = pm.trace ++ ops ∧
      ∀ x, Op.accept x ∉ ops ∧ Op.reject x ∉ ops) := by
  constructor
  · refine ⟨[Op.accept id, Op.post_recv id],
      { Client.make ⟨id, qp, 0⟩ requests accounting with _active := true }, ?_, ?_, ?_, rfl⟩
    · simp [Manager.listen_step, PrivateData.secret, Manager.enqueue]
    · simp [List.count_cons]
    · simp [Manager.listen_step, PrivateData.secret, Manager.enqueue]
  · obtain ⟨ops, h1, h2⟩ := Manager.poll_rdma_step_trace settings env
      { pm with _client_queue := (Operation.CONNECT, msg_t.client client) :: rest }
    rw [(Manager.control_intake_new_client env pm client rest).2] at h1
    refine ⟨ops, h1, fun x => ⟨fun hx => ?_, fun hx => ?_⟩⟩
    · have := h2 _ hx
      simp [Op.is_cm] at this
    · have := h2 _ hx
      simp [Op.is_cm] at this

/-! ## Claims about the listener mapping and the status check -/

/-- C11: the listener maps a polled event to control messages as follows. REQUESTED with
secret 0 enqueues one CONNECT message carrying a new client on that connection; REQUESTED
with a non-zero secret enqueues one CONNECT message carrying the bare connection;
DISCONNECTED enqueues one DISCONNECT message carrying the bare connection; ESTABLISHED
enqueues nothing; an event with a null connection enqueues nothing whatever its status;
a timed-out poll enqueues nothing. Every pass only appends to the queue, at most one
message. -/
theorem listen_event_to_message (m : Manager) (id qp secret : Nat) (conn : Connection)
    (status : ConnectionStatus) (requests : Nat → AllocationRequest)
    (accounting : AccountingBuffer) (env : ListenEnv) :
    (∃ c, c.connection = ⟨id, qp, 0⟩ ∧
      (Manager.listen_step
        { event := some (some ⟨id, qp, 0⟩, ConnectionStatus.REQUESTED),
          requests := requests, accounting := accounting } m)._client_queue
        = m._client_queue ++ [(Operation.CONNECT, msg_t.client c)]) ∧
    (Manager.listen_step
        { event := some (some ⟨id, qp, secret + 1⟩, ConnectionStatus.REQUESTED),
          requests := requests, accounting := accounting } m)._client_queue
      = m._client_queue ++ [(Operation.CONNECT, msg_t.connection ⟨id, qp, secret + 1⟩)] ∧
    (Manager.listen_step
        { event := some (some conn, ConnectionStatus.DISCONNECTED),
          requests := requests, accounting := accounting } m)._client_queue
      = m._client_queue ++ [(Operation.DISCONNECT, msg_t.connection conn)] ∧
    (Manager.listen_step
        { event := some (some conn, ConnectionStatus.ESTABLISHED),
          requests := requests, accounting := accounting } m)._client_queue
      = m._client_queue ∧
    (Manager.listen_step
        { event := some (none, status),
          requests := requests, accounting := accounting } m)._client_queue
      = m._client_queue ∧
    (Manager.listen_step
        { event := none, requests := requests, accounting := accounting } m)._client_queue
      = m._client_queue ∧
    (∃ msgs, (Manager.listen_step env m)._client_queue = m._client_queue ++ msgs ∧
      msgs.length ≤ 1) := by
  refine ⟨⟨{ Client.make ⟨id, qp, 0⟩ requests accounting with _active := true }, rfl, ?_⟩,
    ?_, ?_, ?_, ?_, ?_, ?_⟩
  · simp [Manager.listen_step, PrivateData.secret, Manager.enqueue]
  · simp [Manager.listen_step, PrivateData.secret, Manager.enqueue]
  · simp [Manager.listen_step, Manager.enqueue]
  · simp [Manager.listen_step]
  · simp [Manager.listen_step]
  · simp [Manager.listen_step]
  · unfold Manager.listen_step
    cases env.event with
    | none => exact ⟨[], by simp, by simp⟩
    | some ev =>
      obtain ⟨c, st⟩ := ev
      cases c with
      | none => exact ⟨[], by simp, by simp⟩
      | some c =>
        cases st
        · by_cases hs : PrivateData.secret c.private_data > 0
          · exact ⟨[(Operation.CONNECT, msg_t.connection c)],
              by simp [Manager.enqueue, hs], by simp⟩
          · exact ⟨[(Operation.CONNECT, msg_t.client
              { Client.make c env.requests env.accounting with _active := true })],
              by simp [Manager.enqueue, hs], by simp⟩
        · exact ⟨[], by simp, by simp⟩
        · exact ⟨[(Operation.DISCONNECT, msg_t.connection c)],
            by simp [Manager.enqueue], by simp⟩

/-- C12: the status check maps the result of the non-blocking `waitpid` as follows. A
child that has exited gives FINISHED (with its exit status); a child terminated by a
signal gives FINISHED_FAIL with the signal number, so signal 9 gives FINISHED_FAIL(9);
when `waitpid` reports no state change the result is RUNNING; every other result gives
FINISHED_FAIL(-1). Exited and signalled exclude each other, so exactly one of the four
cases applies to every result. -/
theorem check_maps_waitpid_result (w : WaitResult) (pid : Int) (code core : Nat) :
    (w.return_pid ≠ 0 → WIFEXITED w.status = true →
      ProcessExecutor.check w = (Status.FINISHED, (WEXITSTATUS w.status : Int))) ∧
    (w.return_pid ≠ 0 → WIFSIGNALED w.status = true →
      ProcessExecutor.check w = (Status.FINISHED_FAIL, (WTERMSIG w.status : Int))) ∧
    (w.return_pid = 0 → ProcessExecutor.check w = (Status.RUNNING, 0)) ∧
    (w.return_pid ≠ 0 → WIFEXITED w.status = false → WIFSIGNALED w.status = false →
      ProcessExecutor.check w = (Status.FINISHED_FAIL, -1)) ∧
    ¬ (WIFEXITED w.status = true ∧ WIFSIGNALED w.status = true) ∧
    (w.return_pid = 0 ∨
      (w.return_pid ≠ 0 ∧ WIFEXITED w.status = true) ∨
      (w.return_pid ≠ 0 ∧ WIFSIGNALED w.status = true) ∨
      (w.return_pid ≠ 0 ∧ WIFEXITED w.status = false ∧ WIFSIGNALED w.status = false)) ∧
    (pid ≠ 0 → ProcessExecutor.check ⟨pid, 9 + 128 * core⟩ = (Status.FINISHED_FAIL, 9)) ∧
    (pid ≠ 0 → code < 256 →
      ProcessExecutor.check ⟨pid, 256 * code⟩ = (Status.FINISHED, (code : Int))) ∧
    (pid ≠ 0 →
      ProcessExecutor.check ⟨pid, 127 + 256 * code⟩ = (Status.FINISHED_FAIL, -1)) := by
  have hex : ¬ (WIFEXITED w.status = true ∧ WIFSIGNALED w.status = true) := by
    simp only [WIFEXITED, WIFSIGNALED, decide_eq_true_eq]
    omega
  refine ⟨fun h0 he => ?_, fun h0 hs => ?_, fun h0 => ?_, fun h0 he hs => ?_, hex, ?_,
    fun hp => ?_, fun hp hc => ?_, fun hp => ?_⟩
  · simp [ProcessExecutor.check, h0, he]
  · have he : WIFEXITED w.status = false := by
      cases h : WIFEXITED w.status
      · rfl
      · exact absurd ⟨h, hs⟩ hex
    simp [ProcessExecutor.check, h0, he, hs]
  · simp [ProcessExecutor.check, h0]
  · simp [ProcessExecutor.check, h0, he, hs]
  · by_cases h0 : w.return_pid = 0
    · exact Or.inl h0
    · cases he : WIFEXITED w.status
      · cases hs : WIFSIGNALED w.status
        · exact Or.inr (Or.inr (Or.inr ⟨h0, rfl, rfl⟩))
        · exact Or.inr (Or.inr (Or.inl ⟨h0, rfl⟩))
      · exact Or.inr (Or.inl ⟨h0, rfl⟩)
  · have h1 : (9 + 128 * core) % 128 = 9 := by omega
    simp [ProcessExecutor.check, hp, WIFEXITED, WIFSIGNALED, WTERMSIG, h1]
  · have h1 : (256 * code) % 128 = 0 := by omega
    have h2 : 256 * code / 256 % 256 = code := by omega
    simp only [ProcessExecutor.check, hp, WIFEXITED, WEXITSTATUS, WTERMSIG, h1, h2]
    simp
  · have h1 : (127 + 256 * code) % 128 = 127 := by omega
    simp [ProcessExecutor.check, hp, WIFEXITED, WIFSIGNALED, WTERMSIG, h1]

/-- C13: on the child side of the fork, `spawn` calls `execve` with the program name
followed by exactly the flag and value sequence of spec section 6.2, in that order, for
every allocation request, executor settings and manager connection parameters; the
request of scenario S1 for client 7 gives the literal argument vector shown, with every
number in decimal and both addresses verbatim; the poller stops in the child with that
vector. -/
theorem spawn_passes_spec_arguments (request : AllocationRequest) (exec : ExecutorSettings)
    (conn : ManagerConnection) (begin_time getpid : Int) :
    ProcessExecutor.spawn request exec conn begin_time 0 getpid
      = SpawnOutcome.child ("executor_" ++ toString getpid)
          ("bin/executor" :: flatten_cli (spec_cli request exec conn)) ∧
    ProcessExecutor.spawn_argv request exec conn
      = "bin/executor" :: flatten_cli (spec_cli request exec conn) ∧
    ProcessExecutor.spawn (sample_request 1) sample_settings.exec
        (Manager.manager_connection sample_settings (sample_client 1 7 1 none)) 100 0 4242
      = SpawnOutcome.child "executor_4242"
          ["bin/executor", "-a", "10.0.0.2", "-p", "9000", "--polling-mgr", "thread",
           "-r", "1", "-x", "32", "-s", "4096", "--fast", "1", "--warmup-iters", "0",
           "--max-inline-data", "0", "--func-size", "4096", "--timeout", "10",
           "--mgr-address", "10.0.0.1", "--mgr-port", "10000", "--mgr-secret", "7",
           "--mgr-buf-addr", "4096", "--mgr-buf-rkey", "77"] ∧
    (Manager.scan_client child_env sample_settings 7 (sample_client 1 7 1 none)).halt
      = some (Halt.exec "executor_4242"
          ["bin/executor", "-a", "10.0.0.2", "-p", "9000", "--polling-mgr", "thread",
           "-r", "1", "-x", "32", "-s", "4096", "--fast", "1", "--warmup-iters", "0",
           "--max-inline-data", "0", "--func-size", "4096", "--timeout", "10",
           "--mgr-address", "10.0.0.1", "--mgr-port", "10000", "--mgr-secret", "7",
           "--mgr-buf-addr", "4096", "--mgr-buf-rkey", "77"]) := by
  refine ⟨?_, ?_, by decide, by decide⟩
  · simp [ProcessExecutor.spawn, ProcessExecutor.spawn_argv, spec_cli, flatten_cli]
  · simp [ProcessExecutor.spawn_argv, spec_cli, flatten_cli]

/-! ## Claims about executor reaping -/

theorem Registry.find_erase_all_of_not_mem (removals : List Nat) (r : Registry) (k : Nat)
    (hk : k ∉ removals) :
    Registry.find (Registry.erase_all r removals) k = Registry.find r k := by
  induction removals generalizing r with
  | nil => rfl
  | cons q qs ih =>
    have h1 : k ≠ q := fun e => hk (e ▸ List.mem_cons_self _ _)
    have h2 : k ∉ qs := fun e => hk (List.mem_cons_of_mem _ e)
    have := ih (Registry.erase r q) h2
    simp only [Registry.erase_all, List.foldl_cons] at this ⊢
    rw [this, Registry.find_erase_ne r q k h1]

/-- When the loop over the registry runs to its end, the entry found under a key afterwards
is the processed entry that was found under it before. -/
theorem Manager.scan_clients_find (env : PollEnv) (settings : Settings) (r : Registry)
    (hh : (Manager.scan_clients env settings r).halt = none) (k : Nat) (c : Client)
    (hf : Registry.find r k = some c) :
    Registry.find (Manager.scan_clients env settings r).clients k
      = some (Manager.scan_client env settings k c).client := by
  induction r with
  | nil => simp [Registry.find] at hf
  | cons hd tl ih =>
    obtain ⟨i, c0⟩ := hd
    unfold Manager.scan_clients at hh ⊢
    cases h : (Manager.scan_client env settings i c0).halt with
    | some x => simp [h] at hh
    | none =>
      simp only [h] at hh ⊢
      by_cases hik : i = k
      · subst hik
        simp only [Registry.find, if_true] at hf ⊢
        cases hf
        rfl
      · simp only [Registry.find, hik, if_false] at hf ⊢
        exact ih hh hf

/-- The entry of a client without tear-down request, after an iteration that ran to its
end, is the entry the loop body produced for it. -/
theorem Manager.poll_rdma_step_find (settings : Settings) (env : PollEnv) (m : Manager)
    (hwf : (Manager.control_intake env m)._clients.WF)
    (hh : (Manager.poll_rdma_step settings env m).halt = none) (k : Nat) (c : Client)
    (hf : Registry.find (Manager.control_intake env m)._clients k = some c)
    (hc : ∀ wc ∈ env.recv k, 0 < (c.allocation_requests wc.wr_id).cores) :
    Registry.find (Manager.poll_rdma_step settings env m)._clients k
      = some (Manager.scan_client env settings k c).client := by
  have hm := Registry.find_mem _ k c hf
  have hnr : k ∉ (Manager.scan_clients env settings
      (Manager.control_intake env m)._clients).removals := by
    intro hr
    obtain ⟨c2, hm2, hr2⟩ := Manager.scan_clients_removals_elim env settings _ k hr
    have e2 := Registry.find_of_mem _ hwf k c2 hm2
    have : c2 = c := by
      rw [hf] at e2
      exact (Option.some.inj e2).symm
    subst this
    obtain ⟨wc, hw, hcw⟩ := Manager.scan_client_remove_elim env settings k c2 hr2
    exact absurd (hc wc hw) (not_lt.mpr hcw)
  unfold Manager.poll_rdma_step at hh ⊢
  cases h1 : (Manager.control_intake env m).halt with
  | some x => simp [h1] at hh
  | none =>
    simp only [h1] at hh ⊢
    cases h2 : (Manager.scan_clients env settings
        (Manager.control_intake env m)._clients).halt with
    | some y => simp [h2] at hh
    | none =>
      simp only [h2]
      rw [Registry.find_erase_all_of_not_mem _ _ k hnr]
      exact Manager.scan_clients_find env settings _ h2 k c hf

/-- The loop body for a client without polled completions is the reaping block. -/
theorem Manager.scan_client_no_completions (env : PollEnv) (settings : Settings) (i : Nat)
    (c : Client) (h : env.recv i = []) :
    (Manager.scan_client env settings i c).client = (Manager.reap env i c).1 := by
  simp [Manager.scan_client, h, Manager.drain]

/-- C14: in the reaping step, for every active client that holds an executor: when the
sampled status is RUNNING the client record, with its executor handle and allocation time,
is left as it was; when the status is FINISHED or FINISHED_FAIL the allocation time grows
by now minus allocation_finished, the executor handle is cleared and the client is still
active. Reaping marks nothing for removal: the removal flag of the loop body is the one the
drain set, and after an iteration that ran to its end a client without polled completions
is found in the registry with the reaped record. -/
theorem reaping_clears_finished_executor (settings : Settings) (env : PollEnv) (i : Nat)
    (c : Client) (e : ProcessExecutor) (ha : c.active = true) (he : c.executor = some e) :
    ((ProcessExecutor.check (env.waitpid i)).1 = Status.RUNNING →
      (Manager.reap env i c).1 = c) ∧
    ((ProcessExecutor.check (env.waitpid i)).1 = Status.FINISHED ∨
      (ProcessExecutor.check (env.waitpid i)).1 = Status.FINISHED_FAIL →
      (Manager.reap env i c).1
        = { c with allocation_time := c.allocation_time + (env.now i - e._allocation_finished),
                   executor := none } ∧
      (Manager.reap env i c).1.active = true) ∧
    (∀ c0, (Manager.scan_client env settings i c0).remove
      = (Manager.drain env settings i 0 (env.recv i) c0).remove) ∧
    (∀ m, (Manager.control_intake env m)._clients.WF →
      (Manager.poll_rdma_step settings env m).halt = none →
      Registry.find (Manager.control_intake env m)._clients i = some c →
      env.recv i = [] →
      Registry.find (Manager.poll_rdma_step settings env m)._clients i
        = some (Manager.reap env i c).1) := by
  refine ⟨fun hr => ?_, fun hf => ?_, fun c0 => Manager.scan_client_remove env settings i c0,
    fun m hwf hh hfind hrecv => ?_⟩
  · simp [Manager.reap, ha, he, hr]
  · have hne : (ProcessExecutor.check (env.waitpid i)).1 ≠ Status.RUNNING := by
      rcases hf with h | h <;> rw [h] <;> decide
    have hr : (Manager.reap env i c).1
        = { c with allocation_time := c.allocation_time + (env.now i - e._allocation_finished),
                   executor := none } := by
      simp [Manager.reap, ha, he, hne]
    refine ⟨hr, ?_⟩
    rw [hr]
    exact ha
  · rw [Manager.poll_rdma_step_find settings env m hwf hh i c hfind
      (by intro wc hw; rw [hrecv] at hw; cases hw)]
    rw [Manager.scan_client_no_completions env settings i c hrecv]

/-- Witness for C14: client 7 is active and holds the executor allocated at time 100;
`waitpid` reports termination by signal 9 and the clock reads 250. -/
theorem reaping_clears_finished_executor_witness :
    (sample_client 1 7 1 (some sample_executor)).active = true ∧
    (sample_client 1 7 1 (some sample_executor)).executor = some sample_executor ∧
    ProcessExecutor.check (killed_env.waitpid 7) = (Status.FINISHED_FAIL, 9) ∧
    (Manager.reap killed_env 7 (sample_client 1 7 1 (some sample_executor))).1.allocation_time
      = 150 ∧
    (Manager.reap killed_env 7 (sample_client 1 7 1 (some sample_executor))).1.executor
      = none ∧
    (Manager.reap killed_env 7 (sample_client 1 7 1 (some sample_executor))).1.active
      = true := by
  have h := (reaping_clears_finished_executor sample_settings killed_env 7
    (sample_client 1 7 1 (some sample_executor)) sample_executor rfl rfl).2.1
    (Or.inr (by decide))
  refine ⟨rfl, rfl, by decide, ?_, ?_, h.2⟩
  · rw [h.1]; decide
  · rw [h.1]

/-! ## Claims about the control queue and the intake mode -/

/-- C15: the listener has enqueued the CONNECT messages of two new clients, on queue pairs
7 and 8, before the first iteration of the poller. That iteration dequeues the first
message, registers client 7, raises `conn_count` to 1 and then pops the second message
without handling it: the queue is empty and only key 7 is registered, also after two more
iterations. In general, with `conn_count = 0` an iteration that dequeues a CONNECT message
with a new client also removes the message queued behind it, and only the first one is
acted on. -/
theorem first_connect_pops_next_message (env : PollEnv) (m : Manager) (client : Client)
    (next : Operation × msg_t) (rest : List (Operation × msg_t)) :
    (Manager.listen [sample_listen_env ⟨1, 7, 0⟩ ConnectionStatus.REQUESTED 1,
        sample_listen_env ⟨2, 8, 0⟩ ConnectionStatus.REQUESTED 1]
        Manager.init)._client_queue.length = 2 ∧
    (Manager.poll_rdma_step sample_settings sample_env
      (Manager.listen [sample_listen_env ⟨1, 7, 0⟩ ConnectionStatus.REQUESTED 1,
        sample_listen_env ⟨2, 8, 0⟩ ConnectionStatus.REQUESTED 1]
        Manager.init))._client_queue.length = 0 ∧
    (Manager.poll_rdma_step sample_settings sample_env
      (Manager.listen [sample_listen_env ⟨1, 7, 0⟩ ConnectionStatus.REQUESTED 1,
        sample_listen_env ⟨2, 8, 0⟩ ConnectionStatus.REQUESTED 1]
        Manager.init))._clients.keys = [7] ∧
    (Manager.poll_rdma sample_settings [sample_env, sample_env, sample_env]
      (Manager.listen [sample_listen_env ⟨1, 7, 0⟩ ConnectionStatus.REQUESTED 1,
        sample_listen_env ⟨2, 8, 0⟩ ConnectionStatus.REQUESTED 1]
        Manager.init))._clients.keys = [7] ∧
    (Manager.control_intake env
      { m with conn_count := 0, halt := none,
               _client_queue := (Operation.CONNECT, msg_t.client client) :: next :: rest
      })._client_queue = rest ∧
    (Manager.control_intake env
      { m with conn_count := 0, halt := none,
               _client_queue := (Operation.CONNECT, msg_t.client client) :: next :: rest
      })._clients = Registry.emplace m._clients client.connection.qp_num client ∧
    (Manager.control_intake env
      { m with conn_count := 0, halt := none,
               _client_queue := (Operation.CONNECT, msg_t.client client) :: next :: rest
      }).trace = m.trace := by
  refine ⟨by decide, by decide, by decide, by decide, ?_, ?_, ?_⟩ <;>
    simp [Manager.control_intake, Manager.handle_message, Manager.pop_if_counted,
      wrap_int_one]

theorem Registry.keys_eq_nil (r : Registry) : r.keys = [] ↔ r = [] := by
  cases r <;> simp [Registry.keys]

/-- A CONNECT message with a bare connection whose secret is registered to a client that
holds no executor: the poller accepts the connection and then calls `add_executor`
through the empty handle. -/
theorem Manager.handle_message_null_executor (now : Int) (m : Manager) (conn : Connection)
    (c : Client) (hf : Registry.find m._clients conn.private_data = some c)
    (he : c.executor = none) :
    (Manager.handle_message now (Operation.CONNECT, msg_t.connection conn) m).halt
      = some (Halt.null_executor conn.private_data) := by
  simp [Manager.handle_message, hf, he]

/-- C17: two reachable states in which the attach goes through an empty executor handle.
Client 7 is registered and has sent no allocation request; a connection with private data
7 is requested; the poller finds client 7, accepts the connection and calls `add_executor`
on the empty handle. The same happens after the executor of client 7 was spawned, was
terminated by signal 9 and was reaped. When the executor is still held, the connection is
attached. -/
theorem attach_reaches_empty_executor_handle :
    Manager.Reachable sample_settings
      (Manager.listen_step (sample_listen_env ⟨5, 99, 7⟩ ConnectionStatus.REQUESTED 1)
        registered_state) ∧
    (Registry.find registered_state._clients 7).map (fun c => c.executor) = some none ∧
    (Manager.poll_rdma_step sample_settings sample_env
      (Manager.listen_step (sample_listen_env ⟨5, 99, 7⟩ ConnectionStatus.REQUESTED 1)
        registered_state)).halt = some (Halt.null_executor 7) ∧
    (Manager.poll_rdma_step sample_settings sample_env
      (Manager.listen_step (sample_listen_env ⟨5, 99, 7⟩ ConnectionStatus.REQUESTED 1)
        registered_state)).trace
      = [Op.accept 1, Op.post_recv 1, Op.refill 7, Op.accept 5] ∧
    Manager.Reachable sample_settings
      (Manager.listen_step (sample_listen_env ⟨5, 99, 7⟩ ConnectionStatus.REQUESTED 1)
        reaped_state) ∧
    (Registry.find reaped_state._clients 7).map (fun c => c.executor) = some none ∧
    (Manager.poll_rdma_step sample_settings sample_env
      (Manager.listen_step (sample_listen_env ⟨5, 99, 7⟩ ConnectionStatus.REQUESTED 1)
        reaped_state)).halt = some (Halt.null_executor 7) ∧
    (Manager.poll_rdma_step sample_settings sample_env
      (Manager.listen_step (sample_listen_env ⟨5, 99, 7⟩ ConnectionStatus.REQUESTED 1)
        spawned_state)).halt = none := by
  have h1 : Manager.Reachable sample_settings registered_state :=
    Manager.Reachable.poll _ _ (Manager.Reachable.listen _ _ Manager.Reachable.init) rfl
  have h2 : Manager.Reachable sample_settings spawned_state :=
    Manager.Reachable.poll _ _ h1 (by decide)
  have h3 : Manager.Reachable sample_settings reaped_state :=
    Manager.Reachable.poll _ _ h2 (by decide)
  exact ⟨Manager.Reachable.listen _ _ h1, by decide, by decide, by decide,
    Manager.Reachable.listen _ _ h3, by decide, by decide, by decide⟩

/-- C18: the executor of a client is handed the address of the start of the accounting
region of the client (slot 0), for every client; when the poller reaps an executor it
reads the slot whose index is the registry key converted to `int`, which is 0 only for a
key that is 0 modulo 2^32. For client 7 with a region of one slot the executor was handed
address 4096, the start of the region, and the poller reads slot 7, outside the region. -/
theorem reaping_reads_slot_indexed_by_qp_num (settings : Settings) (env : PollEnv)
    (i k : Nat) (c : Client) :
    (Manager.manager_connection settings c).r_addr = c.accounting.address ∧
    (∀ idx, Op.read_accounting i idx ∈ (Manager.reap env i c).2 → idx = to_int i) ∧
    (to_int k = 0 ↔ k % 2 ^ 32 = 0) ∧
    reaped_state.trace
      = [Op.accept 1, Op.post_recv 1, Op.refill 7,
         Op.spawn 7 ⟨"10.0.0.1", 10000, 7, 4096, 77⟩ 4242, Op.refill 7,
         Op.refill 7, Op.read_accounting 7 7] ∧
    (Registry.find spawned_state._clients 7).map (fun c => c.accounting)
      = some ⟨4096, 77, 1⟩ := by
  refine ⟨rfl, fun idx hidx => ?_, ?_, by decide, by decide⟩
  · unfold Manager.reap at hidx
    by_cases ha : c.active = true
    · simp only [ha, if_true] at hidx
      cases he : c.executor with
      | none =>
        rw [he] at hidx
        simp at hidx
      | some e =>
        rw [he] at hidx
        dsimp only at hidx
        by_cases hs : (ProcessExecutor.check (env.waitpid i)).1 ≠ Status.RUNNING
        · rw [if_pos hs] at hidx
          simp at hidx
          exact hidx
        · rw [if_neg hs] at hidx
          simp at hidx
    · simp [ha] at hidx
  · unfold to_int
    by_cases h : k % 2 ^ 32 < 2 ^ 31
    · rw [if_pos h]
      omega
    · rw [if_neg h]
      omega

/-! ## Claims about the legacy manager -/

/-- The legacy secret of a client index below 2^15 is `65536 * i + 0x1234`, without
overflow of the 32-bit signed integer. -/
theorem Legacy.executor_secret_eq (i : Nat) (hi : i < 2 ^ 15) :
    Legacy.executor_secret i Legacy._secret = ((65536 * i + 4660 : Nat) : Int) ∧
    Legacy.private_data_of (Legacy.executor_secret i Legacy._secret) = 65536 * i + 4660 := by
  have h1 : (Legacy._secret &&& 0xFFFF) = 4660 := by decide
  have h2 : (i <<< 16) ||| 4660 = 65536 * i + 4660 := by
    rw [Nat.shiftLeft_eq, Nat.mul_comm]
    exact (Nat.mul_add_lt_is_or (i := 16) (b := 4660) (by decide) i).symm
  have h3 : (65536 * i + 4660) % 2 ^ 32 = 65536 * i + 4660 := by
    apply Nat.mod_eq_of_lt
    omega
  have h4 : (65536 * i + 4660) < 2 ^ 31 := by omega
  have h5 : Legacy.executor_secret i Legacy._secret = ((65536 * i + 4660 : Nat) : Int) := by
    unfold Legacy.executor_secret to_int
    rw [h1, h2, h3, if_pos h4]
  refine ⟨h5, ?_⟩
  rw [h5]
  unfold Legacy.private_data_of
  have h6 : ((65536 * i + 4660 : Nat) : Int) % 2 ^ 32 = ((65536 * i + 4660 : Nat) : Int) := by
    omega
  rw [h6]
  exact Int.toNat_natCast _

/-- C19: in the legacy manager, for every client index `i < 2^15` and the manager secret
0x1234, the secret `(i << 16) | (secret & 0xFFFF)` handed to the executor is non-zero,
its low 16 bits are the manager secret, shifting it right by 16 gives back `i`, so the
listener classifies a connection carrying it as the executor of client `i` and not as a
new client; two indices with the same encoded secret are equal. -/
theorem legacy_secret_round_trips (i j : Nat) (hi : i < 2 ^ 15) (hj : j < 2 ^ 15) :
    Legacy._secret = 0x1234 ∧
    Legacy.executor_secret i Legacy._secret ≠ 0 ∧
    Legacy.private_data_of (Legacy.executor_secret i Legacy._secret) ≠ 0 ∧
    (Legacy.private_data_of (Legacy.executor_secret i Legacy._secret)) &&& 0xFFFF
      = Legacy._secret ∧
    (Legacy.private_data_of (Legacy.executor_secret i Legacy._secret)) >>> 16 = i ∧
    Legacy.listen_classify (Legacy.private_data_of (Legacy.executor_secret i Legacy._secret))
      Legacy._secret = Legacy.Classified.executor i ∧
    (Legacy.executor_secret i Legacy._secret = Legacy.executor_secret j Legacy._secret →
      i = j) := by
  obtain ⟨hs, hp⟩ := Legacy.executor_secret_eq i hi
  obtain ⟨hsj, _⟩ := Legacy.executor_secret_eq j hj
  have hlow : (65536 * i + 4660) &&& 0xFFFF = 4660 := by
    have := Nat.and_pow_two_sub_one_eq_mod (65536 * i + 4660) 16
    simp only [Nat.reducePow, Nat.add_one_sub_one, Nat.reduceSub] at this
    rw [this]
    omega
  have hhigh : (65536 * i + 4660) >>> 16 = i := by
    rw [Nat.shiftRight_eq_div_pow]
    omega
  have hne : 65536 * i + 4660 ≠ 0 := by omega
  refine ⟨rfl, ?_, ?_, ?_, ?_, ?_, fun h => ?_⟩
  · rw [hs]
    omega
  · rw [hp]
    exact hne
  · rw [hp, hlow]
    rfl
  · rw [hp, hhigh]
  · rw [hp]
    unfold Legacy.listen_classify
    rw [if_pos hne, hlow, hhigh]
    rfl
  · rw [hs, hsj] at h
    omega

/-- Witness for C19: the client indices 3 and 5. -/
theorem legacy_secret_round_trips_witness :
    (3 : Nat) < 2 ^ 15 ∧ (5 : Nat) < 2 ^ 15 ∧
    Legacy.executor_secret 3 Legacy._secret ≠ 0 ∧
    (Legacy.private_data_of (Legacy.executor_secret 3 Legacy._secret)) >>> 16 = 3 ∧
    Legacy.listen_classify (Legacy.private_data_of (Legacy.executor_secret 3 Legacy._secret))
      Legacy._secret = Legacy.Classified.executor 3 :=
  ⟨by decide, by decide,
   (legacy_secret_round_trips 3 5 (by decide) (by decide)).2.1,
   (legacy_secret_round_trips 3 5 (by decide) (by decide)).2.2.2.2.1,
   (legacy_secret_round_trips 3 5 (by decide) (by decide)).2.2.2.2.2.1⟩

end Rfaas
